import Mathlib

/-!
Shallow embedding of the CLFUS RAM cache replacement policy from
iocore/cache/RamCacheCLFUS.cc (struct RamCacheCLFUS and its operations
get, put, fixup, tick, victimize, destroy, requeue_victims,
resize_hashtable, and the per-entry commit step of compress_entries).

Modelling conventions:
- Entries are intrusively linked in the C code; here each live entry is
  held in an association list `store` keyed by a numeric id, and the two
  LRU queues and the hash-bucket chains are lists of ids.  The head of a
  queue list is the oldest element (`dequeue` pops the head, `enqueue`
  appends at the back); the head of a bucket chain is the most recently
  pushed entry (`DList::push` inserts at the head).
- uint64 counters (`hits`) are Nat with explicit reduction mod 2^64 at
  the operations that can overflow; int64 accounting fields (`bytes`,
  `objects`, `history`, `max_bytes`) are Int.
- The float comparisons of the source (`CACHE_VALUE`, REQUIRED_COMPRESSION
  = 0.9, REQUIRED_SHRINK = 0.8) are modelled as exact rational
  comparisons by cross multiplication; for the 32-bit quantities involved
  the double-precision products 0.9*len and 0.8*size these agree with the
  IEEE comparison, and the value comparison is the exact mathematical one.
- The compression codecs are external libraries; `get` takes the
  decompressor as an oracle parameter and the sweep's per-entry commit
  step takes the produced length/buffer as arguments.
- Branches of the C code that dereference an id that is always live in C
  (`storeFind` returning `none`) are given a harmless total behaviour and
  marked `unreachable` in comments.
-/

namespace CLFUS

/-- 128-bit MD5 digest: `w3` is `key.word(3)`, the 32-bit word the code
uses for bucket hashing and the seen filter; `rest` stands for the other
96 bits, so structure equality is full-digest equality. -/
structure MD5 where
  w3 : Nat
  rest : Nat
deriving DecidableEq, Repr

/-- A payload buffer handed to or out of the cache: its byte contents and
its allocated size as reported by `IOBufferData::block_size()`. -/
structure IOBufferData where
  data : List Nat
  block_size : Nat
deriving DecidableEq, Repr

/-- RamCacheCLFUSEntry: one cache entry.  `lru` is `flag_bits.lru`
(true when the entry is a ghost on the history queue), `compressed` is
the 3-bit compression-type field, `data = none` models a null pointer. -/
structure RamCacheCLFUSEntry where
  key : MD5
  auxkey1 : Nat
  auxkey2 : Nat
  hits : Nat
  size : Nat
  len : Nat
  compressed_len : Nat
  compressed : Nat
  incompressible : Bool
  lru : Bool
  copy : Bool
  data : Option IOBufferData
deriving DecidableEq, Repr

/-- The cache state (struct RamCacheCLFUS).  `bucket` is the hash table
(one id chain per bucket), `lru0`/`lru1` are `lru[0]`/`lru[1]`,
`compressed` is the compressor cursor pointer, `store` holds the entry
objects by id and `next_id` models the allocator. -/
structure RamCacheCLFUS where
  max_bytes : Int
  bytes : Int
  objects : Int
  history : Int
  ibuckets : Nat
  nbuckets : Nat
  bucket : List (List Nat)
  lru0 : List Nat
  lru1 : List Nat
  seen : List Nat
  ncompressed : Int
  compressed : Option Nat
  store : List (Nat × RamCacheCLFUSEntry)
  next_id : Nat
deriving DecidableEq, Repr

def ENTRY_OVERHEAD : Nat := 256

def HISTORY_HYSTERIA : Nat := 10

def U64 : Nat := 2 ^ 64

def bucket_sizes : List Nat :=
  [127, 251, 509, 1021, 2039, 4093, 8191, 16381, 32749, 65521, 131071, 262139,
   524287, 1048573, 2097143, 4194301, 8388593, 16777213, 33554393, 67108859,
   134217689, 268435399, 536870909, 1073741789, 2147483647]

/-- REQUEUE_HITS(h) = h ? 1 : 0. -/
def REQUEUE_HITS (h : Nat) : Nat := if h ≠ 0 then 1 else 0

/-- CACHE_VALUE(x) > CACHE_VALUE(y), i.e.
(hx+1)/(sx+OVERHEAD) > (hy+1)/(sy+OVERHEAD), cross-multiplied. -/
def CACHE_VALUE_GT (hx sx hy sy : Nat) : Prop :=
  (hy + 1) * (sx + ENTRY_OVERHEAD) < (hx + 1) * (sy + ENTRY_OVERHEAD)

instance (hx sx hy sy : Nat) : Decidable (CACHE_VALUE_GT hx sx hy sy) := by
  unfold CACHE_VALUE_GT; infer_instance

/-- Element of a list at an index, with a default (models array access). -/
def nth {α : Type} : List α → Nat → α → α
  | [], _, d => d
  | x :: _, 0, _ => x
  | _ :: xs, i + 1, d => nth xs i d

/-- Replace the element of a list at an index (no-op out of range). -/
def setNth {α : Type} : List α → Nat → α → List α
  | [], _, _ => []
  | _ :: xs, 0, v => v :: xs
  | x :: xs, i + 1, v => x :: setNth xs i v

/-- Remove the first occurrence of an id from a queue/chain. -/
def eraseId : List Nat → Nat → List Nat
  | [], _ => []
  | x :: xs, i => if x = i then xs else x :: eraseId xs i

/-- Look an entry up by id. -/
def storeFind : List (Nat × RamCacheCLFUSEntry) → Nat → Option RamCacheCLFUSEntry
  | [], _ => none
  | (j, e) :: rest, i => if j = i then some e else storeFind rest i

/-- Overwrite the entry stored under an id (no-op when the id is absent). -/
def storeSet : List (Nat × RamCacheCLFUSEntry) → Nat → RamCacheCLFUSEntry →
    List (Nat × RamCacheCLFUSEntry)
  | [], _, _ => []
  | (j, e) :: rest, i, e' => if j = i then (j, e') :: rest else (j, e) :: storeSet rest i e'

/-- Free the entry stored under an id. -/
def storeErase : List (Nat × RamCacheCLFUSEntry) → Nat → List (Nat × RamCacheCLFUSEntry)
  | [], _ => []
  | (j, e) :: rest, i => if j = i then rest else (j, e) :: storeErase rest i

/-- Contents of a possibly-null buffer pointer. -/
def bufData (o : Option IOBufferData) : List Nat :=
  match o with
  | some d => d.data
  | none => []

/-- The queue `lru[b]`. -/
def lruQ (s : RamCacheCLFUS) (b : Bool) : List Nat :=
  if b then s.lru1 else s.lru0

/-- `lru[b].remove(e)`. -/
def lruRemove (s : RamCacheCLFUS) (b : Bool) (i : Nat) : RamCacheCLFUS :=
  if b then { s with lru1 := eraseId s.lru1 i } else { s with lru0 := eraseId s.lru0 i }

/-- `lru[b].enqueue(e)`. -/
def lruEnqueue (s : RamCacheCLFUS) (b : Bool) (i : Nat) : RamCacheCLFUS :=
  if b then { s with lru1 := s.lru1 ++ [i] } else { s with lru0 := s.lru0 ++ [i] }

/-- Successor of the first occurrence of an id in a queue
(`e->lru_link.next`, `none` = null). -/
def listSucc : List Nat → Nat → Option Nat
  | [], _ => none
  | x :: xs, i => if x = i then xs.head? else listSucc xs i

/-- Predecessor helper carrying the previous element. -/
def listPredAux : Option Nat → List Nat → Nat → Option Nat
  | _, [], _ => none
  | p, x :: xs, i => if x = i then p else listPredAux (some x) xs i

/-- Predecessor of the first occurrence of an id in a queue
(`e->lru_link.prev`, `none` = null). -/
def listPred (l : List Nat) (i : Nat) : Option Nat :=
  listPredAux none l i

/-- RamCacheCLFUS::move_compressed(e): advance the compressor cursor off
entry `i` (whose lru flag is `b`) before `i` is unlinked. -/
def move_compressed (s : RamCacheCLFUS) (i : Nat) (b : Bool) : RamCacheCLFUS :=
  if s.compressed = some i then
    match listSucc (lruQ s b) i with
    | some nxt => { s with compressed := some nxt }
    | none => { s with ncompressed := s.ncompressed - 1, compressed := listPred (lruQ s b) i }
  else s

/-- RamCacheCLFUS::destroy(e): unlink entry `i` from its LRU queue and its
hash chain, fix the accounting, free it.  (The source also nulls
`e->data` before freeing; freeing subsumes it here.) -/
def destroy (s : RamCacheCLFUS) (i : Nat) : RamCacheCLFUS :=
  match storeFind s.store i with
  | none => s
  | some e =>
    let s₁ := move_compressed s i e.lru
    let s₂ := lruRemove s₁ e.lru i
    let s₃ :=
      if e.lru = false then
        { s₂ with objects := s₂.objects - 1,
                  bytes := s₂.bytes - ((e.size + ENTRY_OVERHEAD : Nat) : Int) }
      else { s₂ with history := s₂.history - 1 }
    let b := e.key.w3 % s₃.nbuckets
    { s₃ with bucket := setNth s₃.bucket b (eraseId (nth s₃.bucket b []) i),
              store := storeErase s₃.store i }

/-- Final disposition of the history clock tick (label Lfree): unlink the
ghost from the hash chain, decrement `history`, free it.  (The source
also clears `e->flag_bits.lru` before freeing.) -/
def tickFree (s : RamCacheCLFUS) (i : Nat) : RamCacheCLFUS :=
  match storeFind s.store i with
  | none => s
  | some e =>
    let b := e.key.w3 % s.nbuckets
    { s with history := s.history - 1,
             bucket := setNth s.bucket b (eraseId (nth s.bucket b []) i),
             store := storeErase s.store i }

/-- RamCacheCLFUS::tick(): dequeue the oldest L1 ghost, shift its hits
(`e->hits <<= 1` in the source, transcribed literally), requeue it with
hits floored to one when still nonzero, and free a ghost when the hits
hit zero or the history queue is overlong. -/
def tick (s : RamCacheCLFUS) : RamCacheCLFUS :=
  match s.lru1 with
  | [] => s
  | eid :: rest =>
    match storeFind s.store eid with
    | none => { s with lru1 := rest }
    | some e =>
      let h := e.hits * 2 % U64
      if h ≠ 0 then
        let s₂ := { s with store := storeSet s.store eid { e with hits := REQUEUE_HITS h },
                           lru1 := rest ++ [eid] }
        if s₂.history ≤ s₂.objects + (HISTORY_HYSTERIA : Int) then s₂
        else
          match s₂.lru1 with
          | [] => s₂
          | fid :: frest => tickFree { s₂ with lru1 := frest } fid
      else tickFree { s with lru1 := rest } eid

/-- RamCacheCLFUS::victimize(e): demote a resident entry to a ghost on L1
(payload dropped, `objects`/`history` adjusted; `bytes` was already
debited by the caller). -/
def victimize (s : RamCacheCLFUS) (i : Nat) : RamCacheCLFUS :=
  match storeFind s.store i with
  | none => s
  | some e =>
    { s with objects := s.objects - 1,
             store := storeSet s.store i { e with data := none, lru := true },
             lru1 := s.lru1 ++ [i],
             history := s.history + 1 }

/-- RamCacheCLFUS::requeue_victims: put the collected victims back onto
the tail of L0 in dequeue order, re-crediting `bytes` and flooring each
victim's hits to one. -/
def requeue_victims (s : RamCacheCLFUS) : List Nat → RamCacheCLFUS
  | [] => s
  | v :: rest =>
    match storeFind s.store v with
    | none => requeue_victims { s with lru0 := s.lru0 ++ [v] } rest
    | some ev =>
      requeue_victims
        { s with bytes := s.bytes + ((ev.size + ENTRY_OVERHEAD : Nat) : Int),
                 store := storeSet s.store v { ev with hits := REQUEUE_HITS ev.hits },
                 lru0 := s.lru0 ++ [v] } rest

/-- Rehash one chain into the new bucket array (DList::pop walks from the
chain head; DList::push prepends to the target chain). -/
def rehashChain (store : List (Nat × RamCacheCLFUSEntry)) (anb : Nat) :
    List Nat → List (List Nat) → List (List Nat)
  | [], acc => acc
  | i :: rest, acc =>
    match storeFind store i with
    | none => rehashChain store anb rest acc
    | some e =>
      rehashChain store anb rest
        (setNth acc (e.key.w3 % anb) (i :: nth acc (e.key.w3 % anb) []))

/-- Rehash every old bucket, in index order. -/
def rehashAll (store : List (Nat × RamCacheCLFUSEntry)) (anb : Nat) :
    List (List Nat) → List (List Nat) → List (List Nat)
  | [], acc => acc
  | chain :: rest, acc => rehashAll store anb rest (rehashChain store anb chain acc)

/-- RamCacheCLFUS::resize_hashtable(): move every entry into a fresh
bucket array of `bucket_sizes[ibuckets]` chains and clear the seen
filter (it is reallocated zeroed). -/
def resize_hashtable (s : RamCacheCLFUS) : RamCacheCLFUS :=
  let anb := nth bucket_sizes s.ibuckets 0
  { s with bucket := rehashAll s.store anb s.bucket (List.replicate anb []),
           nbuckets := anb,
           seen := List.replicate anb 0 }

/-- A RamCacheCLFUS object as default-constructed. -/
def mkRamCacheCLFUS : RamCacheCLFUS :=
  { max_bytes := 0, bytes := 0, objects := 0, history := 0, ibuckets := 0, nbuckets := 0,
    bucket := [], lru0 := [], lru1 := [], seen := [], ncompressed := 0, compressed := none,
    store := [], next_id := 0 }

/-- RamCacheCLFUS::init(abytes, vol): set the capacity; zero disables the
cache (no hash table is ever allocated). -/
def init (s : RamCacheCLFUS) (abytes : Int) : RamCacheCLFUS :=
  let s₁ := { s with max_bytes := abytes }
  if abytes = 0 then s₁ else resize_hashtable s₁

/-- Decompressor oracle: algorithm, stored buffer, compressed_len, len ↦
decompressed bytes, or none on failure.  This stands for the external
fastlz/libz/liblzma decode calls of RamCacheCLFUS::get. -/
def Decomp : Type := Nat → List Nat → Nat → Nat → Option (List Nat)

/-- The switch over `e->flag_bits.compressed` in get: supported
algorithms consult the oracle, any other nonzero tag fails
(`default: goto Lfailed`). -/
def decompressStep (dec : Decomp) (algo : Nat) (buf : List Nat) (clen len : Nat) :
    Option (List Nat) :=
  if algo = 1 ∨ algo = 2 ∨ algo = 3 then dec algo buf clen len else none

/-- The chain walk of RamCacheCLFUS::get (lines 162-229), over the ids of
one bucket chain.  Returns (result, returned buffer, state). -/
def getWalk (dec : Decomp) (key : MD5) (a1 a2 : Nat) (s : RamCacheCLFUS) :
    List Nat → Nat × Option IOBufferData × RamCacheCLFUS
  | [] => (0, none, s)
  | eid :: rest =>
    match storeFind s.store eid with
    | none => getWalk dec key a1 a2 s rest
    | some e =>
      if e.key = key ∧ e.auxkey1 = a1 ∧ e.auxkey2 = a2 then
        let s₁ := move_compressed s eid e.lru
        let s₂ := lruEnqueue (lruRemove s₁ e.lru eid) e.lru eid
        if e.lru = false then
          let e₁ := { e with hits := (e.hits + 1) % U64 }
          let s₃ := { s₂ with store := storeSet s₂.store eid e₁ }
          if e₁.compressed ≠ 0 then
            match decompressStep dec e₁.compressed (bufData e₁.data) e₁.compressed_len e₁.len with
            | none => (0, none, destroy s₃ eid)
            | some b =>
              let nd : IOBufferData := { data := b, block_size := e₁.len }
              if e₁.copy = false then
                let e₂ := { e₁ with size := e₁.compressed_len, compressed := 0, data := some nd }
                (1, some nd,
                 { s₃ with bytes := s₃.bytes + ((e₁.compressed_len : Int) - (e₁.size : Int)),
                           store := storeSet s₃.store eid e₂ })
              else (1, some nd, s₃)
          else
            if e₁.copy then
              (1, some { data := (bufData e₁.data).take e₁.len, block_size := e₁.len }, s₃)
            else (1, e₁.data, s₃)
        else (0, none, s₂)
      else getWalk dec key a1 a2 s rest

/-- RamCacheCLFUS::get(key, ret_data, auxkey1, auxkey2). -/
def get (dec : Decomp) (s : RamCacheCLFUS) (key : MD5) (a1 a2 : Nat) :
    Nat × Option IOBufferData × RamCacheCLFUS :=
  if s.max_bytes = 0 then (0, none, s)
  else getWalk dec key a1 a2 s (nth s.bucket (key.w3 % s.nbuckets) [])

/-- The lookup walk at the top of RamCacheCLFUS::put (lines 446-456):
find the entry that matches the digest and both aux keys, destroying any
same-digest entry with conflicting aux keys met on the way. -/
def put_lookup (key : MD5) (a1 a2 : Nat) : RamCacheCLFUS → List Nat →
    Option Nat × RamCacheCLFUS
  | s, [] => (none, s)
  | s, eid :: rest =>
    match storeFind s.store eid with
    | none => put_lookup key a1 a2 s rest
    | some e =>
      if e.key = key then
        if e.auxkey1 = a1 ∧ e.auxkey2 = a2 then (some eid, s)
        else put_lookup key a1 a2 (destroy s eid) rest
      else put_lookup key a1 a2 s rest

/-- The victims commit walk at label Linsert (lines 535-543): re-admit a
victim when it still fits, otherwise victimize it to L1. -/
def insert_requeue (size : Nat) : RamCacheCLFUS → List Nat → RamCacheCLFUS
  | s, [] => s
  | s, v :: rest =>
    match storeFind s.store v with
    | none => insert_requeue size s rest
    | some ev =>
      if s.bytes + (size : Int) + (ev.size : Int) ≤ s.max_bytes then
        insert_requeue size
          { s with bytes := s.bytes + ((ev.size + ENTRY_OVERHEAD : Nat) : Int),
                   store := storeSet s.store v { ev with hits := REQUEUE_HITS ev.hits },
                   lru0 := s.lru0 ++ [v] } rest
      else insert_requeue size (victimize s v) rest

/-- The tail of the Linsert block (lines 559-577): clear the flags,
install the payload (copying when `copy`), charge `bytes`, set `size`,
bump `objects`, enqueue on L0 and set `len`. -/
def put_finish (data : IOBufferData) (len : Nat) (copy : Bool) (size : Nat)
    (s : RamCacheCLFUS) (eid : Nat) (e : RamCacheCLFUSEntry) : Nat × RamCacheCLFUS :=
  let e₁ := { e with compressed := 0, incompressible := false, lru := false, copy := false }
  let e₂ :=
    if copy = false then { e₁ with data := some data }
    else { e₁ with data := some { data := data.data.take len, block_size := len } }
  let e₃ := { e₂ with copy := copy, size := size, len := len }
  (1, { s with store := storeSet s.store eid e₃,
               bytes := s.bytes + ((size + ENTRY_OVERHEAD : Nat) : Int),
               objects := s.objects + 1,
               lru0 := s.lru0 ++ [eid] })

/-- The freshly allocated entry of the Linsert block before `put_finish`
runs (lines 547-551); fields the source leaves to the allocator prototype
are zero/none. -/
def freshEntry (key : MD5) (a1 a2 : Nat) : RamCacheCLFUSEntry :=
  { key := key, auxkey1 := a1, auxkey2 := a2, hits := 1, size := 0, len := 0,
    compressed_len := 0, compressed := 0, incompressible := false, lru := false,
    copy := false, data := none }

/-- The allocation step of the Linsert block for a brand-new key (lines
547-556): allocate the fresh entry, push it onto bucket `i`, and grow the
hash table when `objects > nbuckets`.  Returns the new id and state. -/
def put_alloc (key : MD5) (a1 a2 i : Nat) (s₁ : RamCacheCLFUS) : Nat × RamCacheCLFUS :=
  let eid := s₁.next_id
  let s₂ := { s₁ with store := s₁.store ++ [(eid, freshEntry key a1 a2)],
                      next_id := eid + 1,
                      bucket := setNth s₁.bucket i (eid :: nth s₁.bucket i []) }
  let s₃ :=
    if s₂.objects > (s₂.nbuckets : Int) then resize_hashtable { s₂ with ibuckets := s₂.ibuckets + 1 }
    else s₂
  (eid, s₃)

/-- Label Linsert continued: see `put_insert`. -/
def put_insert_e (data : IOBufferData) (len : Nat) (copy : Bool) (size : Nat)
    (eOpt : Option Nat) (key : MD5) (a1 a2 i : Nat) (s₁ : RamCacheCLFUS) :
    Nat × RamCacheCLFUS :=
  match eOpt with
  | some eid =>
    match storeFind s₁.store eid with
    | none => (1, s₁)
    | some e => put_finish data len copy size { s₁ with history := s₁.history - 1 } eid e
  | none =>
    let p := put_alloc key a1 a2 i s₁
    match storeFind p.2.store p.1 with
    | none => (1, p.2)
    | some e => put_finish data len copy size p.2 p.1 e

/-- Label Linsert of RamCacheCLFUS::put (lines 534-577): requeue or
victimize the collected victims, take the entry out of history or
allocate a fresh one (growing the hash table when `objects > nbuckets`),
then install the payload. -/
def put_insert (key : MD5) (data : IOBufferData) (len : Nat) (copy : Bool)
    (a1 a2 size i : Nat) (eOpt : Option Nat) (s : RamCacheCLFUS) (victims : List Nat) :
    Nat × RamCacheCLFUS :=
  put_insert_e data len copy size eOpt key a1 a2 i (insert_requeue size s victims)

/-- Label Lhistory of RamCacheCLFUS::put (lines 578-593): requeue the
victims and start a ghost for the key on L1 (its `size` is the payload's
block size, its `len` is whatever the allocator prototype held). -/
def put_history (key : MD5) (a1 a2 blocksize i : Nat) (s : RamCacheCLFUS)
    (victims : List Nat) : Nat × RamCacheCLFUS :=
  let s₁ := requeue_victims s victims
  let eid := s₁.next_id
  let e : RamCacheCLFUSEntry :=
    { key := key, auxkey1 := a1, auxkey2 := a2, hits := 1, size := blocksize, len := 0,
      compressed_len := 0, compressed := 0, incompressible := false, lru := true,
      copy := false, data := none }
  (0, { s₁ with store := s₁.store ++ [(eid, e)],
                next_id := eid + 1,
                bucket := setNth s₁.bucket i (eid :: nth s₁.bucket i []),
                lru1 := s₁.lru1 ++ [eid],
                history := s₁.history + 1 })

/-- The NO-VICTIM rejection exit of the loop (lines 504-508): put the
history candidate back on L1, restore the victims, return not-stored. -/
def put_reject (eOpt : Option Nat) (s : RamCacheCLFUS) (victims : List Nat) :
    Nat × RamCacheCLFUS :=
  let s₁ :=
    match eOpt with
    | some eid => { s with lru1 := s.lru1 ++ [eid] }
    | none => s
  (0, requeue_victims s₁ victims)

/-- The tail of one victim-loop pass, from the history clock tick (line
518) to the pass's exit: `t` is the state just before `tick`, `ve₁` the
victim entry after its hits shift. -/
def put_loop_tail (key : MD5) (data : IOBufferData) (len : Nat) (copy : Bool)
    (a1 a2 size i : Nat) (eOpt : Option Nat)
    (recurse : RamCacheCLFUS → List Nat → Nat × RamCacheCLFUS)
    (ve₁ : RamCacheCLFUSEntry) (t : RamCacheCLFUS) (victims₁ : List Nat) :
    Nat × RamCacheCLFUS :=
  let s₄ := tick t
  match eOpt with
  | none => put_history key a1 a2 data.block_size i s₄ victims₁
  | some eid =>
    match storeFind s₄.store eid with
    | none => (0, s₄)
    | some e =>
      if s₄.bytes + (ve₁.size : Int) + (size : Int) > s₄.max_bytes ∧
          CACHE_VALUE_GT ve₁.hits ve₁.size e.hits e.size then
        let s₅ := requeue_victims s₄ victims₁
        (0, { s₅ with lru1 := s₅.lru1 ++ [eid] })
      else if s₄.bytes + (size : Int) ≤ s₄.max_bytes then
        put_insert key data len copy a1 a2 size i eOpt s₄ victims₁
      else recurse s₄ victims₁

/-- One pass of the victim loop after dequeuing `v` (lines 510-532):
debit `bytes`, collect the victim, fix the compressor cursor, shift the
victim's hits (`victim->hits <<= 1`, transcribed literally), then run the
tail of the pass. -/
def put_loop_step (key : MD5) (data : IOBufferData) (len : Nat) (copy : Bool)
    (a1 a2 size i : Nat) (eOpt : Option Nat)
    (recurse : RamCacheCLFUS → List Nat → Nat × RamCacheCLFUS)
    (v : Nat) (rest : List Nat) (s : RamCacheCLFUS) (victims : List Nat) :
    Nat × RamCacheCLFUS :=
  let s₁ := { s with lru0 := rest }
  match storeFind s₁.store v with
  | none => (0, s₁)
  | some ve =>
    let s₂ := { s₁ with bytes := s₁.bytes - ((ve.size + ENTRY_OVERHEAD : Nat) : Int) }
    let victims₁ := victims ++ [v]
    let s₃ :=
      if s₂.compressed = some v then { s₂ with compressed := none }
      else { s₂ with ncompressed := s₂.ncompressed - 1 }
    let ve₁ := { ve with hits := ve.hits * 2 % U64 }
    put_loop_tail key data len copy a1 a2 size i eOpt recurse ve₁
      { s₃ with store := storeSet s₃.store v ve₁ } victims₁

/-- The victim-selection while(1) loop of RamCacheCLFUS::put (lines
499-533).  `fuel` is an upper bound on the iterations actually taken; the
loop dequeues one L0 entry per pass, so callers pass `s.lru0.length` and
the `fuel = 0` arm with a nonempty queue is never reached. -/
def put_loop (key : MD5) (data : IOBufferData) (len : Nat) (copy : Bool)
    (a1 a2 size i : Nat) (eOpt : Option Nat) :
    Nat → RamCacheCLFUS → List Nat → Nat × RamCacheCLFUS
  | fuel, s, victims =>
    match s.lru0 with
    | [] =>
      if s.bytes + (size : Int) ≤ s.max_bytes then
        put_insert key data len copy a1 a2 size i eOpt s victims
      else put_reject eOpt s victims
    | v :: rest =>
      match fuel with
      | 0 => (0, s)
      | fuel' + 1 =>
        put_loop_step key data len copy a1 a2 size i eOpt
          (put_loop key data len copy a1 a2 size i eOpt fuel') v rest s victims

/-- The body of RamCacheCLFUS::put after the lookup and the in-place
update branch: the initial-fill shortcut (lines 486-488), the seen filter
(lines 489-498) and the victim loop. -/
def put_main (key : MD5) (data : IOBufferData) (len : Nat) (copy : Bool)
    (a1 a2 size i : Nat) (eOpt : Option Nat) (s : RamCacheCLFUS) : Nat × RamCacheCLFUS :=
  if s.lru1 = [] ∧ s.bytes + (size : Int) ≤ s.max_bytes then
    put_insert key data len copy a1 a2 size i eOpt s []
  else
    match eOpt with
    | none =>
      let sv := key.w3 % nth bucket_sizes s.ibuckets 0
      let kv := (key.w3 >>> 16) % 2 ^ 16
      let kk := nth s.seen sv 0
      let s₁ := { s with seen := setNth s.seen sv kv }
      if s₁.history ≥ s₁.objects ∧ kk ≠ kv then (0, s₁)
      else put_loop key data len copy a1 a2 size i none s₁.lru0.length s₁ []
    | some _ => put_loop key data len copy a1 a2 size i eOpt s.lru0.length s []

/-- RamCacheCLFUS::put(key, data, len, copy, auxkey1, auxkey2).  Note
that the in-place update branch (lines 457-480) does not update `e->len`;
this is transcribed faithfully. -/
def put (s : RamCacheCLFUS) (key : MD5) (data : IOBufferData) (len : Nat) (copy : Bool)
    (a1 a2 : Nat) : Nat × RamCacheCLFUS :=
  if s.max_bytes = 0 then (0, s)
  else
    let i := key.w3 % s.nbuckets
    let size := if copy then len else data.block_size
    match put_lookup key a1 a2 s (nth s.bucket i []) with
    | (eOpt, s₁) =>
      match eOpt with
      | some eid =>
        match storeFind s₁.store eid with
        | none => (0, s₁)
        | some e =>
          let e₁ := { e with hits := (e.hits + 1) % U64 }
          let s₂ := { s₁ with store := storeSet s₁.store eid e₁ }
          if e₁.lru = false then
            let s₃ := move_compressed s₂ eid false
            let s₄ := lruEnqueue (lruRemove s₃ false eid) false eid
            let s₅ := { s₄ with bytes := s₄.bytes + ((size : Int) - (e₁.size : Int)) }
            let e₂ :=
              if copy = false then { e₁ with size := size, data := some data }
              else { e₁ with data := some { data := data.data.take len, block_size := len },
                             size := size }
            let e₃ := { e₂ with copy := copy, compressed := 0 }
            (1, { s₅ with store := storeSet s₅.store eid e₃ })
          else
            put_main key data len copy a1 a2 size i (some eid)
              { s₂ with lru1 := eraseId s₂.lru1 eid }
      | none => put_main key data len copy a1 a2 size i none s₁

/-- The chain walk of RamCacheCLFUS::fixup (lines 601-608). -/
def fixup_walk (key : MD5) (o1 o2 n1 n2 : Nat) (s : RamCacheCLFUS) :
    List Nat → Nat × RamCacheCLFUS
  | [] => (0, s)
  | eid :: rest =>
    match storeFind s.store eid with
    | none => fixup_walk key o1 o2 n1 n2 s rest
    | some e =>
      if e.key = key ∧ e.auxkey1 = o1 ∧ e.auxkey2 = o2 then
        (1, { s with store := storeSet s.store eid { e with auxkey1 := n1, auxkey2 := n2 } })
      else fixup_walk key o1 o2 n1 n2 s rest

/-- RamCacheCLFUS::fixup(key, old_auxkey1, old_auxkey2, new_auxkey1,
new_auxkey2). -/
def fixup (s : RamCacheCLFUS) (key : MD5) (o1 o2 n1 n2 : Nat) : Nat × RamCacheCLFUS :=
  if s.max_bytes = 0 then (0, s)
  else fixup_walk key o1 o2 n1 n2 s (nth s.bucket (key.w3 % s.nbuckets) [])

end CLFUS

open CLFUS

/-! Concrete instances used by the witnesses, counterexamples and
failing-input evaluations below. -/

/-- A decompressor oracle that always fails. -/
def oracleNone : Decomp := fun _ _ _ _ => none

/-- A decompressor oracle that succeeds iff the stored buffer literally is
the compressed form tag 9 followed by the original bytes. -/
def oracleTag : Decomp := fun _ buf _ _ =>
  match buf with
  | 9 :: rest => some rest
  | _ => none

def key1 : MD5 := ⟨1, 0⟩
def key2 : MD5 := ⟨2, 0⟩
def key3 : MD5 := ⟨3, 0⟩
def key4 : MD5 := ⟨4, 0⟩
def keyHi : MD5 := ⟨65536, 0⟩
def keyHi5 : MD5 := ⟨327680, 0⟩

/-- A cache initialised with capacity 1000. -/
def cache1000 : RamCacheCLFUS := init mkRamCacheCLFUS 1000

/-- A cache initialised with capacity 100. -/
def cache100 : RamCacheCLFUS := init mkRamCacheCLFUS 100

/-- A cache initialised with capacity 2000. -/
def cache2000 : RamCacheCLFUS := init mkRamCacheCLFUS 2000

/-- cache1000 after storing key1 with a 3-byte payload (copy mode). -/
def trA1 : RamCacheCLFUS := (put cache1000 key1 ⟨[1, 2, 3], 3⟩ 3 true 0 0).2

/-- trA1 after the in-place update of key1 with a 5-byte payload. -/
def trA2 : Nat × RamCacheCLFUS := put trA1 key1 ⟨[4, 5, 6, 7, 8], 5⟩ 5 true 0 0

/-- trA1 after an in-place update of key1 with a 2000-byte payload. -/
def trB2 : Nat × RamCacheCLFUS := put trA1 key1 ⟨List.replicate 2000 5, 2000⟩ 2000 true 0 0

/-- cache1000 after storing key1 with a 10-byte payload. -/
def trC1 : RamCacheCLFUS := (put cache1000 key1 ⟨List.replicate 10 1, 10⟩ 10 true 0 0).2

/-- trC1 after putting key2 with an over-size 2000-byte payload: key2
becomes a ghost on L1 (entry id 1, hits 1) and key1 stays on L0. -/
def trC2 : RamCacheCLFUS := (put trC1 key2 ⟨[], 2000⟩ 2000 true 0 0).2

/-- States of the C5 scenario: fill cache2000 with three entries, make a
ghost for key4, then reput key4 and lose the value contest. -/
def trD1 : RamCacheCLFUS := (put cache2000 key1 ⟨[], 500⟩ 500 true 0 0).2

def trD2 : RamCacheCLFUS := (put trD1 key2 ⟨[], 500⟩ 500 true 0 0).2

def trD3 : RamCacheCLFUS := (put trD2 key3 ⟨[], 200⟩ 200 true 0 0).2

def trD4 : RamCacheCLFUS := (put trD3 key4 ⟨[], 800⟩ 800 true 0 0).2

def trD5 : Nat × RamCacheCLFUS := put trD4 key4 ⟨[], 800⟩ 800 true 0 0

/-- cache100 after storing keyHi with aux keys (1, 0). -/
def trE1 : RamCacheCLFUS := (put cache100 keyHi ⟨[], 10⟩ 10 true 1 0).2

/-- trE1 after putting keyHi with aux keys (2, 0) and an over-size
payload: the put is rejected by the seen filter, yet the (1, 0) entry has
been destroyed during the lookup walk. -/
def trE2 : Nat × RamCacheCLFUS := put trE1 keyHi ⟨[], 200⟩ 200 true 2 0

/-- A compressed resident entry used by the C6 witness. -/
def entryC6 : RamCacheCLFUSEntry :=
  { key := key1, auxkey1 := 0, auxkey2 := 0, hits := 3, size := 10, len := 4,
    compressed_len := 10, compressed := 1, incompressible := false, lru := false,
    copy := false, data := some ⟨[9, 9, 9], 10⟩ }

/-- A hand-built single-entry cache state holding entryC6 (id 5) on L0. -/
def wsC6 : RamCacheCLFUS :=
  { max_bytes := 100, bytes := 266, objects := 1, history := 0, ibuckets := 0,
    nbuckets := 1, bucket := [[5]], lru0 := [5], lru1 := [], seen := [0],
    ncompressed := 0, compressed := none, store := [(5, entryC6)], next_id := 6 }

/-- A resident uncompressed entry used by the C7 witness. -/
def entryC7 : RamCacheCLFUSEntry :=
  { key := key1, auxkey1 := 3, auxkey2 := 4, hits := 2, size := 8, len := 8,
    compressed_len := 0, compressed := 0, incompressible := false, lru := false,
    copy := false, data := some ⟨[1, 2, 3, 4, 5, 6, 7, 8], 8⟩ }

/-- A hand-built single-entry cache state holding entryC7 (id 2) on L0. -/
def wsC7 : RamCacheCLFUS :=
  { max_bytes := 500, bytes := 264, objects := 1, history := 0, ibuckets := 0,
    nbuckets := 1, bucket := [[2]], lru0 := [2], lru1 := [], seen := [0],
    ncompressed := 0, compressed := none, store := [(2, entryC7)], next_id := 3 }

/-- Bytes footprint (`size + ENTRY_OVERHEAD` each) of a list of victim
ids, read off a store (missing ids contribute nothing). -/
def sumVB (st : List (Nat × RamCacheCLFUSEntry)) : List Nat → Int
  | [] => 0
  | v :: rest =>
    (match storeFind st v with
     | some e => ((e.size + ENTRY_OVERHEAD : Nat) : Int)
     | none => 0) + sumVB st rest

/-- The ids of a store are pairwise distinct (always true in the C code,
where the store is the heap). -/
def keysNodup (st : List (Nat × RamCacheCLFUSEntry)) : Prop :=
  (st.map Prod.fst).Nodup

instance (st : List (Nat × RamCacheCLFUSEntry)) : Decidable (keysNodup st) := by
  unfold keysNodup; infer_instance

/-- Full identity match: digest plus both aux keys. -/
def matchesFull (e : RamCacheCLFUSEntry) (key : MD5) (a1 a2 : Nat) : Prop :=
  e.key = key ∧ e.auxkey1 = a1 ∧ e.auxkey2 = a2

instance (e : RamCacheCLFUSEntry) (key : MD5) (a1 a2 : Nat) :
    Decidable (matchesFull e key a1 a2) := by
  unfold matchesFull; infer_instance


/-! Basic lemmas about the store and id-list helpers. -/

theorem storeFind_storeSet_ne (st : List (Nat × RamCacheCLFUSEntry)) (i j : Nat)
    (e' : RamCacheCLFUSEntry) (h : j ≠ i) :
    storeFind (storeSet st i e') j = storeFind st j := by
  induction st with
  | nil => rfl
  | cons p rest ih =>
    obtain ⟨k, e⟩ := p
    by_cases hk : k = i
    · subst hk
      simp only [storeSet, if_pos rfl, storeFind]
      rw [if_neg (Ne.symm h), if_neg (Ne.symm h)]
    · simp only [storeSet, if_neg hk, storeFind]
      by_cases hkj : k = j
      · rw [if_pos hkj, if_pos hkj]
      · rw [if_neg hkj, if_neg hkj, ih]

theorem storeFind_storeSet_self (st : List (Nat × RamCacheCLFUSEntry)) (i : Nat)
    (e e' : RamCacheCLFUSEntry) (h : storeFind st i = some e) :
    storeFind (storeSet st i e') i = some e' := by
  induction st with
  | nil => simp [storeFind] at h
  | cons p rest ih =>
    obtain ⟨k, e₀⟩ := p
    by_cases hk : k = i
    · simp [storeSet, if_pos hk, storeFind, hk]
    · simp only [storeFind, if_neg hk] at h
      simp only [storeSet, if_neg hk, storeFind, if_neg hk]
      exact ih h

theorem storeSet_of_none (st : List (Nat × RamCacheCLFUSEntry)) (i : Nat)
    (e' : RamCacheCLFUSEntry) (h : storeFind st i = none) : storeSet st i e' = st := by
  induction st with
  | nil => rfl
  | cons p rest ih =>
    obtain ⟨k, e₀⟩ := p
    by_cases hk : k = i
    · simp [storeFind, if_pos hk] at h
    · simp only [storeFind, if_neg hk] at h
      simp [storeSet, if_neg hk, ih h]

theorem storeFind_storeSet_none (st : List (Nat × RamCacheCLFUSEntry)) (i j : Nat)
    (e' : RamCacheCLFUSEntry) (h : storeFind st j = none) :
    storeFind (storeSet st i e') j = none := by
  by_cases hj : j = i
  · subst hj; rw [storeSet_of_none st j e' h]; exact h
  · rw [storeFind_storeSet_ne st i j e' hj]; exact h

theorem storeFind_storeErase_ne (st : List (Nat × RamCacheCLFUSEntry)) (i j : Nat)
    (h : j ≠ i) : storeFind (storeErase st i) j = storeFind st j := by
  induction st with
  | nil => rfl
  | cons p rest ih =>
    obtain ⟨k, e⟩ := p
    by_cases hk : k = i
    · subst hk
      have hkj : ¬(k = j) := fun hc => h hc.symm
      simp [storeErase, storeFind, hkj]
    · simp only [storeErase, if_neg hk, storeFind]
      by_cases hkj : k = j
      · rw [if_pos hkj, if_pos hkj]
      · rw [if_neg hkj, if_neg hkj, ih]

theorem storeFind_storeErase_none (st : List (Nat × RamCacheCLFUSEntry)) (i j : Nat)
    (h : storeFind st j = none) : storeFind (storeErase st i) j = none := by
  induction st with
  | nil => rfl
  | cons p rest ih =>
    obtain ⟨k, e⟩ := p
    by_cases hkj : k = j
    · simp [storeFind, if_pos hkj] at h
    · simp only [storeFind, if_neg hkj] at h
      by_cases hk : k = i
      · simp only [storeErase, if_pos hk]
        exact h
      · simp only [storeErase, if_neg hk, storeFind, if_neg hkj]
        exact ih h

theorem storeSet_map_fst (st : List (Nat × RamCacheCLFUSEntry)) (i : Nat)
    (e' : RamCacheCLFUSEntry) : (storeSet st i e').map Prod.fst = st.map Prod.fst := by
  induction st with
  | nil => rfl
  | cons p rest ih =>
    obtain ⟨k, e⟩ := p
    by_cases hk : k = i
    · simp [storeSet, if_pos hk]
    · simp [storeSet, if_neg hk, ih]

theorem keysNodup_storeSet (st : List (Nat × RamCacheCLFUSEntry)) (i : Nat)
    (e' : RamCacheCLFUSEntry) (h : keysNodup st) : keysNodup (storeSet st i e') := by
  unfold keysNodup
  rw [storeSet_map_fst]
  exact h

theorem storeErase_sublist (st : List (Nat × RamCacheCLFUSEntry)) (i : Nat) :
    (storeErase st i).Sublist st := by
  induction st with
  | nil => simp [storeErase]
  | cons p rest ih =>
    obtain ⟨k, e⟩ := p
    by_cases hk : k = i
    · simp only [storeErase, if_pos hk]
      exact List.sublist_cons_self _ _
    · simp only [storeErase, if_neg hk]
      exact ih.cons₂ _

theorem keysNodup_storeErase (st : List (Nat × RamCacheCLFUSEntry)) (i : Nat)
    (h : keysNodup st) : keysNodup (storeErase st i) :=
  List.Nodup.sublist ((storeErase_sublist st i).map Prod.fst) h

theorem storeFind_storeErase_self (st : List (Nat × RamCacheCLFUSEntry)) (i : Nat)
    (h : keysNodup st) : storeFind (storeErase st i) i = none := by
  induction st with
  | nil => rfl
  | cons p rest ih =>
    obtain ⟨k, e⟩ := p
    unfold keysNodup at h
    simp only [List.map_cons, List.nodup_cons] at h
    by_cases hk : k = i
    · subst hk
      simp only [storeErase, if_pos rfl]
      cases hf : storeFind rest k with
      | none => exact hf
      | some e₂ =>
        exfalso
        apply h.1
        clear ih h
        induction rest with
        | nil => simp [storeFind] at hf
        | cons r rr ihr =>
          obtain ⟨k₂, e₃⟩ := r
          by_cases hk₂ : k₂ = k
          · simp [hk₂]
          · simp only [storeFind, if_neg hk₂] at hf
            simp only [List.map_cons, List.mem_cons]
            exact Or.inr (ihr hf)
    · simp only [storeErase, if_neg hk, storeFind, if_neg hk]
      exact ih h.2

theorem storeFind_append_right (st : List (Nat × RamCacheCLFUSEntry)) (n : Nat)
    (e : RamCacheCLFUSEntry) (h : storeFind st n = none) :
    storeFind (st ++ [(n, e)]) n = some e := by
  induction st with
  | nil => simp [storeFind]
  | cons p rest ih =>
    obtain ⟨k, e₀⟩ := p
    by_cases hk : k = n
    · simp [storeFind, if_pos hk] at h
    · simp only [storeFind, if_neg hk] at h
      simp only [List.cons_append, storeFind, if_neg hk]
      exact ih h

theorem storeFind_append_left (st : List (Nat × RamCacheCLFUSEntry)) (n j : Nat)
    (e : RamCacheCLFUSEntry) (h : j ≠ n) :
    storeFind (st ++ [(n, e)]) j = storeFind st j := by
  induction st with
  | nil => simp [storeFind, if_neg (Ne.symm h)]
  | cons p rest ih =>
    obtain ⟨k, e₀⟩ := p
    by_cases hk : k = j
    · simp [storeFind, if_pos hk]
    · simp only [List.cons_append, storeFind, if_neg hk]
      exact ih

theorem eraseId_of_not_mem (l : List Nat) (i : Nat) (h : i ∉ l) : eraseId l i = l := by
  induction l with
  | nil => rfl
  | cons x xs ih =>
    simp only [List.mem_cons, not_or] at h
    simp only [eraseId, if_neg (Ne.symm h.1)]
    rw [ih h.2]

theorem eraseId_append_not_mem (l : List Nat) (i : Nat) (h : i ∉ l) :
    eraseId (l ++ [i]) i = l := by
  induction l with
  | nil => simp [eraseId]
  | cons x xs ih =>
    simp only [List.mem_cons, not_or] at h
    simp only [List.cons_append, eraseId, if_neg (Ne.symm h.1)]
    exact congrArg (fun t => x :: t) (ih h.2)

theorem mem_of_mem_eraseId (l : List Nat) (i x : Nat) (h : x ∈ eraseId l i) : x ∈ l := by
  induction l with
  | nil => exact absurd h (by simp [eraseId])
  | cons y ys ih =>
    by_cases hy : y = i
    · simp only [eraseId, if_pos hy] at h
      exact List.mem_cons_of_mem _ h
    · simp only [eraseId, if_neg hy] at h
      rcases List.mem_cons.mp h with h1 | h2
      · exact h1 ▸ List.mem_cons_self _ _
      · exact List.mem_cons_of_mem _ (ih h2)

theorem not_mem_eraseId_of_nodup (l : List Nat) (i : Nat) (h : l.Nodup) :
    i ∉ eraseId l i := by
  induction l with
  | nil => simp [eraseId]
  | cons x xs ih =>
    rcases List.nodup_cons.mp h with ⟨hx, hxs⟩
    by_cases hxi : x = i
    · subst hxi
      simp only [eraseId, if_pos rfl]
      exact hx
    · simp only [eraseId, if_neg hxi, List.mem_cons, not_or]
      exact ⟨fun hc => hxi hc.symm, ih hxs⟩

theorem nth_setNth_self {α : Type} (l : List α) (i : Nat) (v d : α) (h : i < l.length) :
    nth (setNth l i v) i d = v := by
  induction l generalizing i with
  | nil => simp at h
  | cons x xs ih =>
    cases i with
    | zero => rfl
    | succ n =>
      simp only [setNth, nth]
      exact ih n (by simpa using h)

theorem nth_setNth_ne {α : Type} (l : List α) (i j : Nat) (v d : α) (h : j ≠ i) :
    nth (setNth l i v) j d = nth l j d := by
  induction l generalizing i j with
  | nil => rfl
  | cons x xs ih =>
    cases i with
    | zero =>
      cases j with
      | zero => exact absurd rfl h
      | succ m => rfl
    | succ n =>
      cases j with
      | zero => rfl
      | succ m =>
        simp only [setNth, nth]
        exact ih n m (fun hc => h (by rw [hc]))

/-! Frame lemmas: which state fields each operation leaves unchanged. -/

theorem move_compressed_bytes (s : RamCacheCLFUS) (i : Nat) (b : Bool) :
    (move_compressed s i b).bytes = s.bytes := by
  unfold move_compressed; repeat' split
  all_goals rfl

theorem move_compressed_store (s : RamCacheCLFUS) (i : Nat) (b : Bool) :
    (move_compressed s i b).store = s.store := by
  unfold move_compressed; repeat' split
  all_goals rfl

theorem move_compressed_lru0 (s : RamCacheCLFUS) (i : Nat) (b : Bool) :
    (move_compressed s i b).lru0 = s.lru0 := by
  unfold move_compressed; repeat' split
  all_goals rfl

theorem move_compressed_lru1 (s : RamCacheCLFUS) (i : Nat) (b : Bool) :
    (move_compressed s i b).lru1 = s.lru1 := by
  unfold move_compressed; repeat' split
  all_goals rfl

theorem move_compressed_bucket (s : RamCacheCLFUS) (i : Nat) (b : Bool) :
    (move_compressed s i b).bucket = s.bucket := by
  unfold move_compressed; repeat' split
  all_goals rfl

theorem move_compressed_objects (s : RamCacheCLFUS) (i : Nat) (b : Bool) :
    (move_compressed s i b).objects = s.objects := by
  unfold move_compressed; repeat' split
  all_goals rfl

theorem move_compressed_history (s : RamCacheCLFUS) (i : Nat) (b : Bool) :
    (move_compressed s i b).history = s.history := by
  unfold move_compressed; repeat' split
  all_goals rfl

theorem move_compressed_max_bytes (s : RamCacheCLFUS) (i : Nat) (b : Bool) :
    (move_compressed s i b).max_bytes = s.max_bytes := by
  unfold move_compressed; repeat' split
  all_goals rfl

theorem move_compressed_seen (s : RamCacheCLFUS) (i : Nat) (b : Bool) :
    (move_compressed s i b).seen = s.seen := by
  unfold move_compressed; repeat' split
  all_goals rfl

theorem move_compressed_nbuckets (s : RamCacheCLFUS) (i : Nat) (b : Bool) :
    (move_compressed s i b).nbuckets = s.nbuckets := by
  unfold move_compressed; repeat' split
  all_goals rfl

theorem move_compressed_ibuckets (s : RamCacheCLFUS) (i : Nat) (b : Bool) :
    (move_compressed s i b).ibuckets = s.ibuckets := by
  unfold move_compressed; repeat' split
  all_goals rfl

theorem move_compressed_next_id (s : RamCacheCLFUS) (i : Nat) (b : Bool) :
    (move_compressed s i b).next_id = s.next_id := by
  unfold move_compressed; repeat' split
  all_goals rfl


/-! Frame lemmas for tickFree and tick. -/

theorem tickFree_lru0 (s : RamCacheCLFUS) (i : Nat) : (tickFree s i).lru0 = s.lru0 := by
  cases hf : storeFind s.store i <;> simp [tickFree, hf]

theorem tickFree_lru1 (s : RamCacheCLFUS) (i : Nat) : (tickFree s i).lru1 = s.lru1 := by
  cases hf : storeFind s.store i <;> simp [tickFree, hf]

theorem tickFree_bytes (s : RamCacheCLFUS) (i : Nat) : (tickFree s i).bytes = s.bytes := by
  cases hf : storeFind s.store i <;> simp [tickFree, hf]

theorem tickFree_max_bytes (s : RamCacheCLFUS) (i : Nat) : (tickFree s i).max_bytes = s.max_bytes := by
  cases hf : storeFind s.store i <;> simp [tickFree, hf]

theorem tickFree_objects (s : RamCacheCLFUS) (i : Nat) : (tickFree s i).objects = s.objects := by
  cases hf : storeFind s.store i <;> simp [tickFree, hf]

theorem tickFree_seen (s : RamCacheCLFUS) (i : Nat) : (tickFree s i).seen = s.seen := by
  cases hf : storeFind s.store i <;> simp [tickFree, hf]

theorem tickFree_next_id (s : RamCacheCLFUS) (i : Nat) : (tickFree s i).next_id = s.next_id := by
  cases hf : storeFind s.store i <;> simp [tickFree, hf]

theorem tickFree_nbuckets (s : RamCacheCLFUS) (i : Nat) : (tickFree s i).nbuckets = s.nbuckets := by
  cases hf : storeFind s.store i <;> simp [tickFree, hf]

theorem tickFree_ibuckets (s : RamCacheCLFUS) (i : Nat) : (tickFree s i).ibuckets = s.ibuckets := by
  cases hf : storeFind s.store i <;> simp [tickFree, hf]

theorem tickFree_ncompressed (s : RamCacheCLFUS) (i : Nat) : (tickFree s i).ncompressed = s.ncompressed := by
  cases hf : storeFind s.store i <;> simp [tickFree, hf]

theorem tickFree_compressed (s : RamCacheCLFUS) (i : Nat) : (tickFree s i).compressed = s.compressed := by
  cases hf : storeFind s.store i <;> simp [tickFree, hf]

theorem tickFree_storeFind_ne (s : RamCacheCLFUS) (i x : Nat) (h : x ≠ i) :
    storeFind (tickFree s i).store x = storeFind s.store x := by
  cases hf : storeFind s.store i <;>
    simp [tickFree, hf, storeFind_storeErase_ne _ _ _ h]

theorem tick_lru0 (s : RamCacheCLFUS) : (tick s).lru0 = s.lru0 := by
  cases hL : s.lru1 with
  | nil => simp [tick, hL]
  | cons eid rest =>
    cases hf : storeFind s.store eid with
    | none => simp [tick, hL, hf]
    | some e =>
      by_cases hh : e.hits * 2 % U64 ≠ 0
      · simp only [tick, hL, hf, if_pos hh]
        split
        · rfl
        · split
          · rfl
          · rw [tickFree_lru0]
      · simp only [tick, hL, hf, if_neg hh]
        rw [tickFree_lru0]

theorem tick_bytes (s : RamCacheCLFUS) : (tick s).bytes = s.bytes := by
  cases hL : s.lru1 with
  | nil => simp [tick, hL]
  | cons eid rest =>
    cases hf : storeFind s.store eid with
    | none => simp [tick, hL, hf]
    | some e =>
      by_cases hh : e.hits * 2 % U64 ≠ 0
      · simp only [tick, hL, hf, if_pos hh]
        split
        · rfl
        · split
          · rfl
          · rw [tickFree_bytes]
      · simp only [tick, hL, hf, if_neg hh]
        rw [tickFree_bytes]

theorem tick_max_bytes (s : RamCacheCLFUS) : (tick s).max_bytes = s.max_bytes := by
  cases hL : s.lru1 with
  | nil => simp [tick, hL]
  | cons eid rest =>
    cases hf : storeFind s.store eid with
    | none => simp [tick, hL, hf]
    | some e =>
      by_cases hh : e.hits * 2 % U64 ≠ 0
      · simp only [tick, hL, hf, if_pos hh]
        split
        · rfl
        · split
          · rfl
          · rw [tickFree_max_bytes]
      · simp only [tick, hL, hf, if_neg hh]
        rw [tickFree_max_bytes]

theorem tick_objects (s : RamCacheCLFUS) : (tick s).objects = s.objects := by
  cases hL : s.lru1 with
  | nil => simp [tick, hL]
  | cons eid rest =>
    cases hf : storeFind s.store eid with
    | none => simp [tick, hL, hf]
    | some e =>
      by_cases hh : e.hits * 2 % U64 ≠ 0
      · simp only [tick, hL, hf, if_pos hh]
        split
        · rfl
        · split
          · rfl
          · rw [tickFree_objects]
      · simp only [tick, hL, hf, if_neg hh]
        rw [tickFree_objects]

theorem tick_seen (s : RamCacheCLFUS) : (tick s).seen = s.seen := by
  cases hL : s.lru1 with
  | nil => simp [tick, hL]
  | cons eid rest =>
    cases hf : storeFind s.store eid with
    | none => simp [tick, hL, hf]
    | some e =>
      by_cases hh : e.hits * 2 % U64 ≠ 0
      · simp only [tick, hL, hf, if_pos hh]
        split
        · rfl
        · split
          · rfl
          · rw [tickFree_seen]
      · simp only [tick, hL, hf, if_neg hh]
        rw [tickFree_seen]

theorem tick_next_id (s : RamCacheCLFUS) : (tick s).next_id = s.next_id := by
  cases hL : s.lru1 with
  | nil => simp [tick, hL]
  | cons eid rest =>
    cases hf : storeFind s.store eid with
    | none => simp [tick, hL, hf]
    | some e =>
      by_cases hh : e.hits * 2 % U64 ≠ 0
      · simp only [tick, hL, hf, if_pos hh]
        split
        · rfl
        · split
          · rfl
          · rw [tickFree_next_id]
      · simp only [tick, hL, hf, if_neg hh]
        rw [tickFree_next_id]

theorem tick_nbuckets (s : RamCacheCLFUS) : (tick s).nbuckets = s.nbuckets := by
  cases hL : s.lru1 with
  | nil => simp [tick, hL]
  | cons eid rest =>
    cases hf : storeFind s.store eid with
    | none => simp [tick, hL, hf]
    | some e =>
      by_cases hh : e.hits * 2 % U64 ≠ 0
      · simp only [tick, hL, hf, if_pos hh]
        split
        · rfl
        · split
          · rfl
          · rw [tickFree_nbuckets]
      · simp only [tick, hL, hf, if_neg hh]
        rw [tickFree_nbuckets]

theorem tick_ibuckets (s : RamCacheCLFUS) : (tick s).ibuckets = s.ibuckets := by
  cases hL : s.lru1 with
  | nil => simp [tick, hL]
  | cons eid rest =>
    cases hf : storeFind s.store eid with
    | none => simp [tick, hL, hf]
    | some e =>
      by_cases hh : e.hits * 2 % U64 ≠ 0
      · simp only [tick, hL, hf, if_pos hh]
        split
        · rfl
        · split
          · rfl
          · rw [tickFree_ibuckets]
      · simp only [tick, hL, hf, if_neg hh]
        rw [tickFree_ibuckets]

theorem tick_ncompressed (s : RamCacheCLFUS) : (tick s).ncompressed = s.ncompressed := by
  cases hL : s.lru1 with
  | nil => simp [tick, hL]
  | cons eid rest =>
    cases hf : storeFind s.store eid with
    | none => simp [tick, hL, hf]
    | some e =>
      by_cases hh : e.hits * 2 % U64 ≠ 0
      · simp only [tick, hL, hf, if_pos hh]
        split
        · rfl
        · split
          · rfl
          · rw [tickFree_ncompressed]
      · simp only [tick, hL, hf, if_neg hh]
        rw [tickFree_ncompressed]

theorem tick_compressed (s : RamCacheCLFUS) : (tick s).compressed = s.compressed := by
  cases hL : s.lru1 with
  | nil => simp [tick, hL]
  | cons eid rest =>
    cases hf : storeFind s.store eid with
    | none => simp [tick, hL, hf]
    | some e =>
      by_cases hh : e.hits * 2 % U64 ≠ 0
      · simp only [tick, hL, hf, if_pos hh]
        split
        · rfl
        · split
          · rfl
          · rw [tickFree_compressed]
      · simp only [tick, hL, hf, if_neg hh]
        rw [tickFree_compressed]

theorem tick_lru1_subset (s : RamCacheCLFUS) (x : Nat) (h : x ∈ (tick s).lru1) :
    x ∈ s.lru1 := by
  revert h
  cases hL : s.lru1 with
  | nil => simp [tick, hL]
  | cons eid rest =>
    cases hf : storeFind s.store eid with
    | none =>
      intro h
      simp only [tick, hL, hf] at h
      exact hL ▸ List.mem_cons_of_mem _ h
    | some e =>
      by_cases hh : e.hits * 2 % U64 ≠ 0
      · simp only [tick, hL, hf, if_pos hh]
        split
        · intro h
          simp only [RamCacheCLFUS.lru1] at h
          rcases List.mem_append.mp h with h1 | h2
          · exact List.mem_cons_of_mem _ h1
          · simp only [List.mem_singleton] at h2
            exact h2 ▸ List.mem_cons_self _ _
        · split
          · intro h
            simp only [RamCacheCLFUS.lru1] at h
            rcases List.mem_append.mp h with h1 | h2
            · exact List.mem_cons_of_mem _ h1
            · simp only [List.mem_singleton] at h2
              exact h2 ▸ List.mem_cons_self _ _
          · rename_i hm
            intro h
            rw [tickFree_lru1] at h
            simp only [RamCacheCLFUS.lru1] at h hm
            have : x ∈ rest ++ [eid] := by
              rw [hm]
              exact List.mem_cons_of_mem _ h
            rcases List.mem_append.mp this with h1 | h2
            · exact List.mem_cons_of_mem _ h1
            · simp only [List.mem_singleton] at h2
              exact h2 ▸ List.mem_cons_self _ _
      · simp only [tick, hL, hf, if_neg hh]
        intro h
        rw [tickFree_lru1] at h
        simp only [RamCacheCLFUS.lru1] at h
        exact List.mem_cons_of_mem _ h

theorem tick_storeFind_of_not_mem (s : RamCacheCLFUS) (x : Nat) (h : x ∉ s.lru1) :
    storeFind (tick s).store x = storeFind s.store x := by
  cases hL : s.lru1 with
  | nil => simp [tick, hL]
  | cons eid rest =>
    rw [hL] at h
    simp only [List.mem_cons, not_or] at h
    cases hf : storeFind s.store eid with
    | none => simp [tick, hL, hf]
    | some e =>
      by_cases hh : e.hits * 2 % U64 ≠ 0
      · simp only [tick, hL, hf, if_pos hh]
        split
        · simp only [RamCacheCLFUS.store]
          exact storeFind_storeSet_ne _ _ _ _ h.1
        · split
          · simp only [RamCacheCLFUS.store]
            exact storeFind_storeSet_ne _ _ _ _ h.1
          · rename_i hm
            try simp only [RamCacheCLFUS.lru1] at hm
            rename_i fid frest
            have hfid : x ≠ fid := by
              have : fid ∈ rest ++ [eid] := by
                rw [hm]; exact List.mem_cons_self _ _
              rcases List.mem_append.mp this with h1 | h2
              · exact fun hc => h.2 (hc ▸ h1)
              · simp only [List.mem_singleton] at h2
                exact fun hc => h.1 (hc.trans h2)
            rw [tickFree_storeFind_ne _ _ _ hfid]
            simp only [RamCacheCLFUS.store]
            exact storeFind_storeSet_ne _ _ _ _ h.1
      · simp only [tick, hL, hf, if_neg hh]
        rw [tickFree_storeFind_ne _ _ _ h.1]

/-! Frame lemmas for destroy, victimize and requeue_victims. -/

theorem destroy_max_bytes (s : RamCacheCLFUS) (i : Nat) : (destroy s i).max_bytes = s.max_bytes := by
  cases hf : storeFind s.store i with
  | none => simp [destroy, hf]
  | some e =>
    cases hl : e.lru <;>
      simp [destroy, hf, hl, lruRemove, move_compressed_bytes, move_compressed_store, move_compressed_lru0, move_compressed_lru1, move_compressed_bucket, move_compressed_objects, move_compressed_history, move_compressed_max_bytes, move_compressed_seen, move_compressed_nbuckets, move_compressed_ibuckets, move_compressed_next_id]

theorem destroy_seen (s : RamCacheCLFUS) (i : Nat) : (destroy s i).seen = s.seen := by
  cases hf : storeFind s.store i with
  | none => simp [destroy, hf]
  | some e =>
    cases hl : e.lru <;>
      simp [destroy, hf, hl, lruRemove, move_compressed_bytes, move_compressed_store, move_compressed_lru0, move_compressed_lru1, move_compressed_bucket, move_compressed_objects, move_compressed_history, move_compressed_max_bytes, move_compressed_seen, move_compressed_nbuckets, move_compressed_ibuckets, move_compressed_next_id]

theorem destroy_ibuckets (s : RamCacheCLFUS) (i : Nat) : (destroy s i).ibuckets = s.ibuckets := by
  cases hf : storeFind s.store i with
  | none => simp [destroy, hf]
  | some e =>
    cases hl : e.lru <;>
      simp [destroy, hf, hl, lruRemove, move_compressed_bytes, move_compressed_store, move_compressed_lru0, move_compressed_lru1, move_compressed_bucket, move_compressed_objects, move_compressed_history, move_compressed_max_bytes, move_compressed_seen, move_compressed_nbuckets, move_compressed_ibuckets, move_compressed_next_id]

theorem destroy_nbuckets (s : RamCacheCLFUS) (i : Nat) : (destroy s i).nbuckets = s.nbuckets := by
  cases hf : storeFind s.store i with
  | none => simp [destroy, hf]
  | some e =>
    cases hl : e.lru <;>
      simp [destroy, hf, hl, lruRemove, move_compressed_bytes, move_compressed_store, move_compressed_lru0, move_compressed_lru1, move_compressed_bucket, move_compressed_objects, move_compressed_history, move_compressed_max_bytes, move_compressed_seen, move_compressed_nbuckets, move_compressed_ibuckets, move_compressed_next_id]

theorem destroy_next_id (s : RamCacheCLFUS) (i : Nat) : (destroy s i).next_id = s.next_id := by
  cases hf : storeFind s.store i with
  | none => simp [destroy, hf]
  | some e =>
    cases hl : e.lru <;>
      simp [destroy, hf, hl, lruRemove, move_compressed_bytes, move_compressed_store, move_compressed_lru0, move_compressed_lru1, move_compressed_bucket, move_compressed_objects, move_compressed_history, move_compressed_max_bytes, move_compressed_seen, move_compressed_nbuckets, move_compressed_ibuckets, move_compressed_next_id]

theorem victimize_bytes (s : RamCacheCLFUS) (i : Nat) : (victimize s i).bytes = s.bytes := by
  cases hf : storeFind s.store i <;> simp [victimize, hf]

theorem victimize_max_bytes (s : RamCacheCLFUS) (i : Nat) : (victimize s i).max_bytes = s.max_bytes := by
  cases hf : storeFind s.store i <;> simp [victimize, hf]

theorem victimize_lru0 (s : RamCacheCLFUS) (i : Nat) : (victimize s i).lru0 = s.lru0 := by
  cases hf : storeFind s.store i <;> simp [victimize, hf]

theorem victimize_seen (s : RamCacheCLFUS) (i : Nat) : (victimize s i).seen = s.seen := by
  cases hf : storeFind s.store i <;> simp [victimize, hf]

theorem victimize_nbuckets (s : RamCacheCLFUS) (i : Nat) : (victimize s i).nbuckets = s.nbuckets := by
  cases hf : storeFind s.store i <;> simp [victimize, hf]

theorem victimize_ibuckets (s : RamCacheCLFUS) (i : Nat) : (victimize s i).ibuckets = s.ibuckets := by
  cases hf : storeFind s.store i <;> simp [victimize, hf]

theorem victimize_next_id (s : RamCacheCLFUS) (i : Nat) : (victimize s i).next_id = s.next_id := by
  cases hf : storeFind s.store i <;> simp [victimize, hf]

theorem victimize_bucket (s : RamCacheCLFUS) (i : Nat) : (victimize s i).bucket = s.bucket := by
  cases hf : storeFind s.store i <;> simp [victimize, hf]

theorem destroy_bytes_le (s : RamCacheCLFUS) (i : Nat) : (destroy s i).bytes ≤ s.bytes := by
  cases hf : storeFind s.store i with
  | none => simp [destroy, hf]
  | some e =>
    cases hl : e.lru <;>
      simp [destroy, hf, hl, lruRemove, move_compressed_bytes] <;> omega

theorem destroy_store_eq (s : RamCacheCLFUS) (i : Nat) (e : RamCacheCLFUSEntry)
    (hf : storeFind s.store i = some e) : (destroy s i).store = storeErase s.store i := by
  cases hl : e.lru <;>
    simp [destroy, hf, hl, lruRemove, move_compressed_store]

theorem destroy_storeFind_ne (s : RamCacheCLFUS) (i x : Nat) (h : x ≠ i) :
    storeFind (destroy s i).store x = storeFind s.store x := by
  cases hf : storeFind s.store i with
  | none => simp [destroy, hf]
  | some e =>
    rw [destroy_store_eq s i e hf]
    exact storeFind_storeErase_ne _ _ _ h

theorem destroy_storeFind_none (s : RamCacheCLFUS) (i x : Nat)
    (h : storeFind s.store x = none) : storeFind (destroy s i).store x = none := by
  cases hf : storeFind s.store i with
  | none => simpa [destroy, hf]
  | some e =>
    rw [destroy_store_eq s i e hf]
    exact storeFind_storeErase_none _ _ _ h

theorem destroy_keysNodup (s : RamCacheCLFUS) (i : Nat) (h : keysNodup s.store) :
    keysNodup (destroy s i).store := by
  cases hf : storeFind s.store i with
  | none => simpa [destroy, hf]
  | some e =>
    rw [destroy_store_eq s i e hf]
    exact keysNodup_storeErase _ _ h

theorem destroy_store_weak (s : RamCacheCLFUS) (i : Nat) (hkn : keysNodup s.store)
    (x : Nat) (e : RamCacheCLFUSEntry) (h : storeFind (destroy s i).store x = some e) :
    storeFind s.store x = some e := by
  cases hf : storeFind s.store i with
  | none => simpa [destroy, hf] using h
  | some e₀ =>
    rw [destroy_store_eq s i e₀ hf] at h
    by_cases hx : x = i
    · subst hx
      rw [storeFind_storeErase_self _ _ hkn] at h
      exact absurd h (by simp)
    · rw [storeFind_storeErase_ne _ _ _ hx] at h
      exact h

theorem destroy_lru0_subset (s : RamCacheCLFUS) (i x : Nat)
    (h : x ∈ (destroy s i).lru0) : x ∈ s.lru0 := by
  revert h
  cases hf : storeFind s.store i with
  | none => simp [destroy, hf]
  | some e =>
    cases hl : e.lru
    · simp only [destroy, hf, hl, lruRemove, if_neg (by simp : ¬(false = true)),
        move_compressed_lru0]
      intro h
      try simp only [RamCacheCLFUS.lru0] at h
      exact mem_of_mem_eraseId _ _ _ h
    · simp [destroy, hf, hl, lruRemove, move_compressed_lru0]

theorem destroy_lru1_subset (s : RamCacheCLFUS) (i x : Nat)
    (h : x ∈ (destroy s i).lru1) : x ∈ s.lru1 := by
  revert h
  cases hf : storeFind s.store i with
  | none => simp [destroy, hf]
  | some e =>
    cases hl : e.lru
    · simp [destroy, hf, hl, lruRemove, move_compressed_lru1]
    · simp only [destroy, hf, hl, lruRemove, if_pos rfl, move_compressed_lru1]
      intro h
      try simp only [RamCacheCLFUS.lru1] at h
      exact mem_of_mem_eraseId _ _ _ h

/-! Lemmas about sumVB and requeue_victims. -/

theorem sumVB_nonneg (st : List (Nat × RamCacheCLFUSEntry)) (vs : List Nat) :
    0 ≤ sumVB st vs := by
  induction vs with
  | nil => simp [sumVB]
  | cons v rest ih =>
    simp only [sumVB]
    cases hf : storeFind st v with
    | none => simpa using ih
    | some e =>
      simp only [hf]
      exact add_nonneg (Int.ofNat_nonneg _) ih

theorem sumVB_append (st : List (Nat × RamCacheCLFUSEntry)) (l₁ l₂ : List Nat) :
    sumVB st (l₁ ++ l₂) = sumVB st l₁ + sumVB st l₂ := by
  induction l₁ with
  | nil => simp [sumVB]
  | cons v rest ih =>
    simp only [List.cons_append, sumVB, List.append_eq, ih]
    ring

theorem sumVB_congr (st st' : List (Nat × RamCacheCLFUSEntry)) (vs : List Nat)
    (h : ∀ v ∈ vs, storeFind st' v = storeFind st v) : sumVB st' vs = sumVB st vs := by
  induction vs with
  | nil => rfl
  | cons v rest ih =>
    simp only [sumVB]
    rw [h v (List.mem_cons_self _ _), ih (fun w hw => h w (List.mem_cons_of_mem _ hw))]

theorem sumVB_storeSet_size (st : List (Nat × RamCacheCLFUSEntry)) (i : Nat)
    (e e' : RamCacheCLFUSEntry) (hf : storeFind st i = some e) (hs : e'.size = e.size)
    (vs : List Nat) : sumVB (storeSet st i e') vs = sumVB st vs := by
  induction vs with
  | nil => rfl
  | cons v rest ih =>
    simp only [sumVB, ih]
    by_cases hv : v = i
    · subst hv
      simp only [storeFind_storeSet_self st v e e' hf, hf, hs]
    · simp only [storeFind_storeSet_ne st i v e' hv]

theorem requeue_victims_lru0 (vs : List Nat) (s : RamCacheCLFUS) :
    (requeue_victims s vs).lru0 = s.lru0 ++ vs := by
  induction vs generalizing s with
  | nil => simp [requeue_victims]
  | cons v rest ih =>
    cases hf : storeFind s.store v <;>
      simp [requeue_victims, hf, ih]

theorem requeue_victims_bytes (vs : List Nat) (s : RamCacheCLFUS) :
    (requeue_victims s vs).bytes = s.bytes + sumVB s.store vs := by
  induction vs generalizing s with
  | nil => simp [requeue_victims, sumVB]
  | cons v rest ih =>
    cases hf : storeFind s.store v with
    | none =>
      simp only [requeue_victims, hf, sumVB]
      rw [ih]
      simp only [RamCacheCLFUS.bytes, RamCacheCLFUS.store]
      ring
    | some ev =>
      simp only [requeue_victims, hf, sumVB]
      rw [ih]
      simp only [RamCacheCLFUS.bytes, RamCacheCLFUS.store]
      rw [sumVB_storeSet_size s.store v ev { ev with hits := REQUEUE_HITS ev.hits } hf rfl rest]
      ring

/-! Remaining frame lemmas for requeue_victims. -/

theorem requeue_victims_max_bytes (vs : List Nat) (s : RamCacheCLFUS) :
    (requeue_victims s vs).max_bytes = s.max_bytes := by
  induction vs generalizing s with
  | nil => simp [requeue_victims]
  | cons v rest ih =>
    cases hf : storeFind s.store v <;>
      simp [requeue_victims, hf, ih]

theorem requeue_victims_lru1 (vs : List Nat) (s : RamCacheCLFUS) :
    (requeue_victims s vs).lru1 = s.lru1 := by
  induction vs generalizing s with
  | nil => simp [requeue_victims]
  | cons v rest ih =>
    cases hf : storeFind s.store v <;>
      simp [requeue_victims, hf, ih]

theorem requeue_victims_seen (vs : List Nat) (s : RamCacheCLFUS) :
    (requeue_victims s vs).seen = s.seen := by
  induction vs generalizing s with
  | nil => simp [requeue_victims]
  | cons v rest ih =>
    cases hf : storeFind s.store v <;>
      simp [requeue_victims, hf, ih]

theorem requeue_victims_history (vs : List Nat) (s : RamCacheCLFUS) :
    (requeue_victims s vs).history = s.history := by
  induction vs generalizing s with
  | nil => simp [requeue_victims]
  | cons v rest ih =>
    cases hf : storeFind s.store v <;>
      simp [requeue_victims, hf, ih]

theorem requeue_victims_objects (vs : List Nat) (s : RamCacheCLFUS) :
    (requeue_victims s vs).objects = s.objects := by
  induction vs generalizing s with
  | nil => simp [requeue_victims]
  | cons v rest ih =>
    cases hf : storeFind s.store v <;>
      simp [requeue_victims, hf, ih]

theorem requeue_victims_next_id (vs : List Nat) (s : RamCacheCLFUS) :
    (requeue_victims s vs).next_id = s.next_id := by
  induction vs generalizing s with
  | nil => simp [requeue_victims]
  | cons v rest ih =>
    cases hf : storeFind s.store v <;>
      simp [requeue_victims, hf, ih]

theorem requeue_victims_nbuckets (vs : List Nat) (s : RamCacheCLFUS) :
    (requeue_victims s vs).nbuckets = s.nbuckets := by
  induction vs generalizing s with
  | nil => simp [requeue_victims]
  | cons v rest ih =>
    cases hf : storeFind s.store v <;>
      simp [requeue_victims, hf, ih]

theorem requeue_victims_ibuckets (vs : List Nat) (s : RamCacheCLFUS) :
    (requeue_victims s vs).ibuckets = s.ibuckets := by
  induction vs generalizing s with
  | nil => simp [requeue_victims]
  | cons v rest ih =>
    cases hf : storeFind s.store v <;>
      simp [requeue_victims, hf, ih]

theorem requeue_victims_bucket (vs : List Nat) (s : RamCacheCLFUS) :
    (requeue_victims s vs).bucket = s.bucket := by
  induction vs generalizing s with
  | nil => simp [requeue_victims]
  | cons v rest ih =>
    cases hf : storeFind s.store v <;>
      simp [requeue_victims, hf, ih]

theorem requeue_victims_compressed (vs : List Nat) (s : RamCacheCLFUS) :
    (requeue_victims s vs).compressed = s.compressed := by
  induction vs generalizing s with
  | nil => simp [requeue_victims]
  | cons v rest ih =>
    cases hf : storeFind s.store v <;>
      simp [requeue_victims, hf, ih]

theorem requeue_victims_ncompressed (vs : List Nat) (s : RamCacheCLFUS) :
    (requeue_victims s vs).ncompressed = s.ncompressed := by
  induction vs generalizing s with
  | nil => simp [requeue_victims]
  | cons v rest ih =>
    cases hf : storeFind s.store v <;>
      simp [requeue_victims, hf, ih]

/-! Lemmas about the put lookup walk. -/

theorem put_lookup_nokey (key : MD5) (a1 a2 : Nat) (s : RamCacheCLFUS) (chain : List Nat)
    (h : ∀ eid ∈ chain, ∀ e, storeFind s.store eid = some e → e.key ≠ key) :
    put_lookup key a1 a2 s chain = (none, s) := by
  induction chain with
  | nil => rfl
  | cons eid rest ih =>
    cases hf : storeFind s.store eid with
    | none =>
      simp only [put_lookup, hf]
      exact ih (fun x hx e he => h x (List.mem_cons_of_mem _ hx) e he)
    | some e =>
      have hk : ¬(e.key = key) := h eid (List.mem_cons_self _ _) e hf
      simp only [put_lookup, hf, if_neg hk]
      exact ih (fun x hx e' he => h x (List.mem_cons_of_mem _ hx) e' he)

theorem put_lookup_nodestroy (key : MD5) (a1 a2 : Nat) (s : RamCacheCLFUS)
    (chain : List Nat)
    (h : ∀ eid ∈ chain, ∀ e, storeFind s.store eid = some e → e.key = key →
      e.auxkey1 = a1 ∧ e.auxkey2 = a2) :
    (put_lookup key a1 a2 s chain).2 = s ∧
    ∀ eid, (put_lookup key a1 a2 s chain).1 = some eid → eid ∈ chain ∧
      ∃ e, storeFind s.store eid = some e ∧ e.key = key ∧ e.auxkey1 = a1 ∧
        e.auxkey2 = a2 := by
  induction chain with
  | nil =>
    refine ⟨rfl, fun x hx => ?_⟩
    exact absurd hx (by simp [put_lookup])
  | cons eid rest ih =>
    have hrest := ih (fun x hx e he hk => h x (List.mem_cons_of_mem _ hx) e he hk)
    cases hf : storeFind s.store eid with
    | none =>
      simp only [put_lookup, hf]
      exact ⟨hrest.1, fun x hx => ⟨List.mem_cons_of_mem _ (hrest.2 x hx).1,
        (hrest.2 x hx).2⟩⟩
    | some e =>
      by_cases hk : e.key = key
      · have haux := h eid (List.mem_cons_self _ _) e hf hk
        simp only [put_lookup, hf, if_pos hk, if_pos haux]
        refine ⟨by trivial, fun x hx => ?_⟩
        have hxe : eid = x := by simpa using hx
        subst hxe
        exact ⟨List.mem_cons_self _ _, e, hf, hk, haux⟩
      · simp only [put_lookup, hf, if_neg hk]
        exact ⟨hrest.1, fun x hx => ⟨List.mem_cons_of_mem _ (hrest.2 x hx).1,
          (hrest.2 x hx).2⟩⟩

theorem put_lookup_nofull (key : MD5) (a1 a2 : Nat) (chain : List Nat) :
    ∀ s : RamCacheCLFUS, keysNodup s.store →
    (∀ eid ∈ chain, ∀ e, storeFind s.store eid = some e →
      ¬(e.key = key ∧ e.auxkey1 = a1 ∧ e.auxkey2 = a2)) →
    (put_lookup key a1 a2 s chain).1 = none := by
  induction chain with
  | nil => intro s _ _; rfl
  | cons eid rest ih =>
    intro s hkn h
    cases hf : storeFind s.store eid with
    | none =>
      simp only [put_lookup, hf]
      exact ih s hkn (fun x hx e he => h x (List.mem_cons_of_mem _ hx) e he)
    | some e =>
      have hnf := h eid (List.mem_cons_self _ _) e hf
      by_cases hk : e.key = key
      · have haux : ¬(e.auxkey1 = a1 ∧ e.auxkey2 = a2) := fun hc => hnf ⟨hk, hc⟩
        simp only [put_lookup, hf, if_pos hk, if_neg haux]
        refine ih (destroy s eid) (destroy_keysNodup s eid hkn) ?_
        intro x hx e' he'
        exact h x (List.mem_cons_of_mem _ hx) e' (destroy_store_weak s eid hkn x e' he')
      · simp only [put_lookup, hf, if_neg hk]
        exact ih s hkn (fun x hx e' he => h x (List.mem_cons_of_mem _ hx) e' he)

theorem put_lookup_found (key : MD5) (a1 a2 : Nat) (chain : List Nat) :
    ∀ (s : RamCacheCLFUS) (eid : Nat),
    (put_lookup key a1 a2 s chain).1 = some eid →
    ∃ e, storeFind (put_lookup key a1 a2 s chain).2.store eid = some e ∧
      e.key = key ∧ e.auxkey1 = a1 ∧ e.auxkey2 = a2 := by
  induction chain with
  | nil => intro s eid h; exact absurd h (by simp [put_lookup])
  | cons x rest ih =>
    intro s eid h
    cases hf : storeFind s.store x with
    | none =>
      simp only [put_lookup, hf] at h ⊢
      exact ih s eid h
    | some e =>
      by_cases hk : e.key = key
      · by_cases haux : e.auxkey1 = a1 ∧ e.auxkey2 = a2
        · simp only [put_lookup, hf, if_pos hk, if_pos haux] at h ⊢
          have hxe : x = eid := by simpa using h
          subst hxe
          exact ⟨e, hf, hk, haux.1, haux.2⟩
        · simp only [put_lookup, hf, if_pos hk, if_neg haux] at h ⊢
          exact ih (destroy s x) eid h
      · simp only [put_lookup, hf, if_neg hk] at h ⊢
        exact ih s eid h

theorem put_lookup_bytes_le (key : MD5) (a1 a2 : Nat) (chain : List Nat) :
    ∀ s : RamCacheCLFUS, (put_lookup key a1 a2 s chain).2.bytes ≤ s.bytes := by
  induction chain with
  | nil => intro s; exact le_refl _
  | cons x rest ih =>
    intro s
    cases hf : storeFind s.store x with
    | none => simp only [put_lookup, hf]; exact ih s
    | some e =>
      by_cases hk : e.key = key
      · by_cases haux : e.auxkey1 = a1 ∧ e.auxkey2 = a2
        · simp only [put_lookup, hf, if_pos hk, if_pos haux]
          exact le_refl _
        · simp only [put_lookup, hf, if_pos hk, if_neg haux]
          exact le_trans (ih (destroy s x)) (destroy_bytes_le s x)
      · simp only [put_lookup, hf, if_neg hk]; exact ih s

/-! Frame lemmas for the put lookup walk. -/

theorem put_lookup_max_bytes (key : MD5) (a1 a2 : Nat) (chain : List Nat) :
    ∀ s : RamCacheCLFUS, (put_lookup key a1 a2 s chain).2.max_bytes = s.max_bytes := by
  induction chain with
  | nil => intro s; rfl
  | cons x rest ih =>
    intro s
    cases hf : storeFind s.store x with
    | none =>
      simp only [put_lookup, hf]
      exact ih s
    | some e =>
      by_cases hk : e.key = key
      · by_cases haux : e.auxkey1 = a1 ∧ e.auxkey2 = a2
        · simp only [put_lookup, hf, if_pos hk, if_pos haux]
        · simp only [put_lookup, hf, if_pos hk, if_neg haux]
          rw [ih (destroy s x), destroy_max_bytes]
      · simp only [put_lookup, hf, if_neg hk]
        exact ih s

theorem put_lookup_seen (key : MD5) (a1 a2 : Nat) (chain : List Nat) :
    ∀ s : RamCacheCLFUS, (put_lookup key a1 a2 s chain).2.seen = s.seen := by
  induction chain with
  | nil => intro s; rfl
  | cons x rest ih =>
    intro s
    cases hf : storeFind s.store x with
    | none =>
      simp only [put_lookup, hf]
      exact ih s
    | some e =>
      by_cases hk : e.key = key
      · by_cases haux : e.auxkey1 = a1 ∧ e.auxkey2 = a2
        · simp only [put_lookup, hf, if_pos hk, if_pos haux]
        · simp only [put_lookup, hf, if_pos hk, if_neg haux]
          rw [ih (destroy s x), destroy_seen]
      · simp only [put_lookup, hf, if_neg hk]
        exact ih s

theorem put_lookup_ibuckets (key : MD5) (a1 a2 : Nat) (chain : List Nat) :
    ∀ s : RamCacheCLFUS, (put_lookup key a1 a2 s chain).2.ibuckets = s.ibuckets := by
  induction chain with
  | nil => intro s; rfl
  | cons x rest ih =>
    intro s
    cases hf : storeFind s.store x with
    | none =>
      simp only [put_lookup, hf]
      exact ih s
    | some e =>
      by_cases hk : e.key = key
      · by_cases haux : e.auxkey1 = a1 ∧ e.auxkey2 = a2
        · simp only [put_lookup, hf, if_pos hk, if_pos haux]
        · simp only [put_lookup, hf, if_pos hk, if_neg haux]
          rw [ih (destroy s x), destroy_ibuckets]
      · simp only [put_lookup, hf, if_neg hk]
        exact ih s

theorem put_lookup_nbuckets (key : MD5) (a1 a2 : Nat) (chain : List Nat) :
    ∀ s : RamCacheCLFUS, (put_lookup key a1 a2 s chain).2.nbuckets = s.nbuckets := by
  induction chain with
  | nil => intro s; rfl
  | cons x rest ih =>
    intro s
    cases hf : storeFind s.store x with
    | none =>
      simp only [put_lookup, hf]
      exact ih s
    | some e =>
      by_cases hk : e.key = key
      · by_cases haux : e.auxkey1 = a1 ∧ e.auxkey2 = a2
        · simp only [put_lookup, hf, if_pos hk, if_pos haux]
        · simp only [put_lookup, hf, if_pos hk, if_neg haux]
          rw [ih (destroy s x), destroy_nbuckets]
      · simp only [put_lookup, hf, if_neg hk]
        exact ih s

theorem put_lookup_next_id (key : MD5) (a1 a2 : Nat) (chain : List Nat) :
    ∀ s : RamCacheCLFUS, (put_lookup key a1 a2 s chain).2.next_id = s.next_id := by
  induction chain with
  | nil => intro s; rfl
  | cons x rest ih =>
    intro s
    cases hf : storeFind s.store x with
    | none =>
      simp only [put_lookup, hf]
      exact ih s
    | some e =>
      by_cases hk : e.key = key
      · by_cases haux : e.auxkey1 = a1 ∧ e.auxkey2 = a2
        · simp only [put_lookup, hf, if_pos hk, if_pos haux]
        · simp only [put_lookup, hf, if_pos hk, if_neg haux]
          rw [ih (destroy s x), destroy_next_id]
      · simp only [put_lookup, hf, if_neg hk]
        exact ih s

theorem put_lookup_lru0_subset (key : MD5) (a1 a2 : Nat) (chain : List Nat) :
    ∀ (s : RamCacheCLFUS) (x : Nat), x ∈ (put_lookup key a1 a2 s chain).2.lru0 →
      x ∈ s.lru0 := by
  induction chain with
  | nil => intro s x hx; exact hx
  | cons y rest ih =>
    intro s x
    cases hf : storeFind s.store y with
    | none =>
      simp only [put_lookup, hf]
      exact ih s x
    | some e =>
      by_cases hk : e.key = key
      · by_cases haux : e.auxkey1 = a1 ∧ e.auxkey2 = a2
        · simp only [put_lookup, hf, if_pos hk, if_pos haux]
          exact fun h => h
        · simp only [put_lookup, hf, if_pos hk, if_neg haux]
          exact fun h => destroy_lru0_subset s y x (ih (destroy s y) x h)
      · simp only [put_lookup, hf, if_neg hk]
        exact ih s x

theorem put_lookup_lru1_subset (key : MD5) (a1 a2 : Nat) (chain : List Nat) :
    ∀ (s : RamCacheCLFUS) (x : Nat), x ∈ (put_lookup key a1 a2 s chain).2.lru1 →
      x ∈ s.lru1 := by
  induction chain with
  | nil => intro s x hx; exact hx
  | cons y rest ih =>
    intro s x
    cases hf : storeFind s.store y with
    | none =>
      simp only [put_lookup, hf]
      exact ih s x
    | some e =>
      by_cases hk : e.key = key
      · by_cases haux : e.auxkey1 = a1 ∧ e.auxkey2 = a2
        · simp only [put_lookup, hf, if_pos hk, if_pos haux]
          exact fun h => h
        · simp only [put_lookup, hf, if_pos hk, if_neg haux]
          exact fun h => destroy_lru1_subset s y x (ih (destroy s y) x h)
      · simp only [put_lookup, hf, if_neg hk]
        exact ih s x

theorem put_lookup_keysNodup (key : MD5) (a1 a2 : Nat) (chain : List Nat) :
    ∀ s : RamCacheCLFUS, keysNodup s.store →
      keysNodup (put_lookup key a1 a2 s chain).2.store := by
  induction chain with
  | nil => intro s h; exact h
  | cons y rest ih =>
    intro s h
    cases hf : storeFind s.store y with
    | none =>
      simp only [put_lookup, hf]
      exact ih s h
    | some e =>
      by_cases hk : e.key = key
      · by_cases haux : e.auxkey1 = a1 ∧ e.auxkey2 = a2
        · simp only [put_lookup, hf, if_pos hk, if_pos haux]
          exact h
        · simp only [put_lookup, hf, if_pos hk, if_neg haux]
          exact ih (destroy s y) (destroy_keysNodup s y h)
      · simp only [put_lookup, hf, if_neg hk]
        exact ih s h

theorem put_lookup_store_weak (key : MD5) (a1 a2 : Nat) (chain : List Nat) :
    ∀ (s : RamCacheCLFUS), keysNodup s.store → ∀ (x : Nat) (e : RamCacheCLFUSEntry),
      storeFind (put_lookup key a1 a2 s chain).2.store x = some e →
      storeFind s.store x = some e := by
  induction chain with
  | nil => intro s _ x e hx; exact hx
  | cons y rest ih =>
    intro s hkn x e
    cases hf : storeFind s.store y with
    | none =>
      simp only [put_lookup, hf]
      exact ih s hkn x e
    | some e₀ =>
      by_cases hk : e₀.key = key
      · by_cases haux : e₀.auxkey1 = a1 ∧ e₀.auxkey2 = a2
        · simp only [put_lookup, hf, if_pos hk, if_pos haux]
          exact fun h => h
        · simp only [put_lookup, hf, if_pos hk, if_neg haux]
          intro h
          exact destroy_store_weak s y hkn x e
            (ih (destroy s y) (destroy_keysNodup s y hkn) x e h)
      · simp only [put_lookup, hf, if_neg hk]
        exact ih s hkn x e

/-! Frame lemmas for resize_hashtable, insert_requeue, put_finish and put_insert. -/

theorem resize_hashtable_bytes (s : RamCacheCLFUS) :
    (resize_hashtable s).bytes = s.bytes := by
  simp [resize_hashtable]

theorem resize_hashtable_max_bytes (s : RamCacheCLFUS) :
    (resize_hashtable s).max_bytes = s.max_bytes := by
  simp [resize_hashtable]

theorem resize_hashtable_objects (s : RamCacheCLFUS) :
    (resize_hashtable s).objects = s.objects := by
  simp [resize_hashtable]

theorem resize_hashtable_history (s : RamCacheCLFUS) :
    (resize_hashtable s).history = s.history := by
  simp [resize_hashtable]

theorem resize_hashtable_lru0 (s : RamCacheCLFUS) :
    (resize_hashtable s).lru0 = s.lru0 := by
  simp [resize_hashtable]

theorem resize_hashtable_lru1 (s : RamCacheCLFUS) :
    (resize_hashtable s).lru1 = s.lru1 := by
  simp [resize_hashtable]

theorem resize_hashtable_store (s : RamCacheCLFUS) :
    (resize_hashtable s).store = s.store := by
  simp [resize_hashtable]

theorem resize_hashtable_next_id (s : RamCacheCLFUS) :
    (resize_hashtable s).next_id = s.next_id := by
  simp [resize_hashtable]

theorem resize_hashtable_ncompressed (s : RamCacheCLFUS) :
    (resize_hashtable s).ncompressed = s.ncompressed := by
  simp [resize_hashtable]

theorem resize_hashtable_compressed (s : RamCacheCLFUS) :
    (resize_hashtable s).compressed = s.compressed := by
  simp [resize_hashtable]

theorem insert_requeue_max_bytes (size : Nat) (vs : List Nat) :
    ∀ s : RamCacheCLFUS, (insert_requeue size s vs).max_bytes = s.max_bytes := by
  induction vs with
  | nil => intro s; rfl
  | cons v rest ih =>
    intro s
    cases hf : storeFind s.store v with
    | none =>
      simp only [insert_requeue, hf]
      exact ih s
    | some ev =>
      by_cases hc : s.bytes + (size : Int) + (ev.size : Int) ≤ s.max_bytes
      · simp only [insert_requeue, hf, if_pos hc]
        rw [ih]
      · simp only [insert_requeue, hf, if_neg hc]
        rw [ih]
        cases hfv : storeFind s.store v <;> simp [victimize, hfv]

theorem insert_requeue_next_id (size : Nat) (vs : List Nat) :
    ∀ s : RamCacheCLFUS, (insert_requeue size s vs).next_id = s.next_id := by
  induction vs with
  | nil => intro s; rfl
  | cons v rest ih =>
    intro s
    cases hf : storeFind s.store v with
    | none =>
      simp only [insert_requeue, hf]
      exact ih s
    | some ev =>
      by_cases hc : s.bytes + (size : Int) + (ev.size : Int) ≤ s.max_bytes
      · simp only [insert_requeue, hf, if_pos hc]
        rw [ih]
      · simp only [insert_requeue, hf, if_neg hc]
        rw [ih]
        cases hfv : storeFind s.store v <;> simp [victimize, hfv]

theorem insert_requeue_seen (size : Nat) (vs : List Nat) :
    ∀ s : RamCacheCLFUS, (insert_requeue size s vs).seen = s.seen := by
  induction vs with
  | nil => intro s; rfl
  | cons v rest ih =>
    intro s
    cases hf : storeFind s.store v with
    | none =>
      simp only [insert_requeue, hf]
      exact ih s
    | some ev =>
      by_cases hc : s.bytes + (size : Int) + (ev.size : Int) ≤ s.max_bytes
      · simp only [insert_requeue, hf, if_pos hc]
        rw [ih]
      · simp only [insert_requeue, hf, if_neg hc]
        rw [ih]
        cases hfv : storeFind s.store v <;> simp [victimize, hfv]

theorem insert_requeue_nbuckets (size : Nat) (vs : List Nat) :
    ∀ s : RamCacheCLFUS, (insert_requeue size s vs).nbuckets = s.nbuckets := by
  induction vs with
  | nil => intro s; rfl
  | cons v rest ih =>
    intro s
    cases hf : storeFind s.store v with
    | none =>
      simp only [insert_requeue, hf]
      exact ih s
    | some ev =>
      by_cases hc : s.bytes + (size : Int) + (ev.size : Int) ≤ s.max_bytes
      · simp only [insert_requeue, hf, if_pos hc]
        rw [ih]
      · simp only [insert_requeue, hf, if_neg hc]
        rw [ih]
        cases hfv : storeFind s.store v <;> simp [victimize, hfv]

theorem insert_requeue_ibuckets (size : Nat) (vs : List Nat) :
    ∀ s : RamCacheCLFUS, (insert_requeue size s vs).ibuckets = s.ibuckets := by
  induction vs with
  | nil => intro s; rfl
  | cons v rest ih =>
    intro s
    cases hf : storeFind s.store v with
    | none =>
      simp only [insert_requeue, hf]
      exact ih s
    | some ev =>
      by_cases hc : s.bytes + (size : Int) + (ev.size : Int) ≤ s.max_bytes
      · simp only [insert_requeue, hf, if_pos hc]
        rw [ih]
      · simp only [insert_requeue, hf, if_neg hc]
        rw [ih]
        cases hfv : storeFind s.store v <;> simp [victimize, hfv]

theorem insert_requeue_bucket (size : Nat) (vs : List Nat) :
    ∀ s : RamCacheCLFUS, (insert_requeue size s vs).bucket = s.bucket := by
  induction vs with
  | nil => intro s; rfl
  | cons v rest ih =>
    intro s
    cases hf : storeFind s.store v with
    | none =>
      simp only [insert_requeue, hf]
      exact ih s
    | some ev =>
      by_cases hc : s.bytes + (size : Int) + (ev.size : Int) ≤ s.max_bytes
      · simp only [insert_requeue, hf, if_pos hc]
        rw [ih]
      · simp only [insert_requeue, hf, if_neg hc]
        rw [ih]
        cases hfv : storeFind s.store v <;> simp [victimize, hfv]

theorem insert_requeue_bound (size : Nat) (vs : List Nat) :
    ∀ s : RamCacheCLFUS,
      s.bytes + (size : Int) ≤ s.max_bytes + ((ENTRY_OVERHEAD : Nat) : Int) →
      (insert_requeue size s vs).bytes + (size : Int) ≤
        s.max_bytes + ((ENTRY_OVERHEAD : Nat) : Int) := by
  induction vs with
  | nil => intro s h; exact h
  | cons v rest ih =>
    intro s h
    cases hf : storeFind s.store v with
    | none =>
      simp only [insert_requeue, hf]
      exact ih s h
    | some ev =>
      by_cases hc : s.bytes + (size : Int) + (ev.size : Int) ≤ s.max_bytes
      · simp only [insert_requeue, hf, if_pos hc]
        have h' := ih { s with
            bytes := s.bytes + ((ev.size + ENTRY_OVERHEAD : Nat) : Int),
            store := storeSet s.store v { ev with hits := REQUEUE_HITS ev.hits },
            lru0 := s.lru0 ++ [v] } (by simp only [RamCacheCLFUS.bytes,
              RamCacheCLFUS.max_bytes]; push_cast; push_cast at hc; omega)
        simpa using h'
      · simp only [insert_requeue, hf, if_neg hc]
        have h' := ih (victimize s v) (by
          rw [victimize_bytes, victimize_max_bytes]; exact h)
        rw [victimize_max_bytes] at h'
        exact h'

theorem put_finish_fst (data : IOBufferData) (len : Nat) (copy : Bool) (size : Nat)
    (s : RamCacheCLFUS) (eid : Nat) (e : RamCacheCLFUSEntry) :
    (put_finish data len copy size s eid e).1 = 1 := rfl

theorem put_finish_bytes (data : IOBufferData) (len : Nat) (copy : Bool) (size : Nat)
    (s : RamCacheCLFUS) (eid : Nat) (e : RamCacheCLFUSEntry) :
    (put_finish data len copy size s eid e).2.bytes =
      s.bytes + ((size + ENTRY_OVERHEAD : Nat) : Int) := rfl

theorem put_alloc_bytes (key : MD5) (a1 a2 i : Nat) (s₁ : RamCacheCLFUS) :
    (put_alloc key a1 a2 i s₁).2.bytes = s₁.bytes := by
  simp only [put_alloc]
  split <;> simp [resize_hashtable_bytes]

theorem put_alloc_max_bytes (key : MD5) (a1 a2 i : Nat) (s₁ : RamCacheCLFUS) :
    (put_alloc key a1 a2 i s₁).2.max_bytes = s₁.max_bytes := by
  simp only [put_alloc]
  split <;> simp [resize_hashtable_max_bytes]

theorem put_alloc_lru0 (key : MD5) (a1 a2 i : Nat) (s₁ : RamCacheCLFUS) :
    (put_alloc key a1 a2 i s₁).2.lru0 = s₁.lru0 := by
  simp only [put_alloc]
  split <;> simp [resize_hashtable_lru0]

theorem put_alloc_lru1 (key : MD5) (a1 a2 i : Nat) (s₁ : RamCacheCLFUS) :
    (put_alloc key a1 a2 i s₁).2.lru1 = s₁.lru1 := by
  simp only [put_alloc]
  split <;> simp [resize_hashtable_lru1]

theorem put_alloc_fst (key : MD5) (a1 a2 i : Nat) (s₁ : RamCacheCLFUS) :
    (put_alloc key a1 a2 i s₁).1 = s₁.next_id := rfl

theorem put_insert_fst (key : MD5) (data : IOBufferData) (len : Nat) (copy : Bool)
    (a1 a2 size i : Nat) (eOpt : Option Nat) (s : RamCacheCLFUS) (victims : List Nat) :
    (put_insert key data len copy a1 a2 size i eOpt s victims).1 = 1 := by
  simp only [put_insert, put_insert_e]
  cases eOpt with
  | some eid =>
    cases hf : storeFind (insert_requeue size s victims).store eid <;>
      simp [hf, put_finish]
  | none =>
    cases hf : storeFind (put_alloc key a1 a2 i (insert_requeue size s victims)).2.store
        (put_alloc key a1 a2 i (insert_requeue size s victims)).1 <;>
      simp [hf, put_finish]

theorem put_insert_bytes (key : MD5) (data : IOBufferData) (len : Nat) (copy : Bool)
    (a1 a2 size i : Nat) (eOpt : Option Nat) (s : RamCacheCLFUS) (victims : List Nat)
    (h : s.bytes + (size : Int) ≤ s.max_bytes) :
    (put_insert key data len copy a1 a2 size i eOpt s victims).2.bytes ≤
      s.max_bytes + 2 * ((ENTRY_OVERHEAD : Nat) : Int) := by
  have hov : (0 : Int) ≤ ((ENTRY_OVERHEAD : Nat) : Int) := Int.ofNat_nonneg _
  have hsz : (0 : Int) ≤ (size : Int) := Int.ofNat_nonneg _
  have hb := insert_requeue_bound size victims s (by omega)
  have hmax := insert_requeue_max_bytes size victims s
  simp only [put_insert, put_insert_e]
  cases eOpt with
  | some eid =>
    cases hf : storeFind (insert_requeue size s victims).store eid with
    | none =>
      simp only [hf]
      omega
    | some e =>
      simp only [hf, put_finish]
      try simp only [RamCacheCLFUS.bytes, RamCacheCLFUS.history]
      omega
  | none =>
    cases hf : storeFind (put_alloc key a1 a2 i (insert_requeue size s victims)).2.store
        (put_alloc key a1 a2 i (insert_requeue size s victims)).1 with
    | none =>
      simp only [hf]
      rw [put_alloc_bytes]
      omega
    | some e =>
      simp only [hf, put_finish]
      try simp only [RamCacheCLFUS.bytes]
      rw [put_alloc_bytes]
      omega

theorem put_history_fst (key : MD5) (a1 a2 blocksize i : Nat) (s : RamCacheCLFUS)
    (vs : List Nat) : (put_history key a1 a2 blocksize i s vs).1 = 0 := rfl

theorem put_history_bytes (key : MD5) (a1 a2 blocksize i : Nat) (s : RamCacheCLFUS)
    (vs : List Nat) :
    (put_history key a1 a2 blocksize i s vs).2.bytes = s.bytes + sumVB s.store vs := by
  simp only [put_history, RamCacheCLFUS.bytes]
  exact requeue_victims_bytes vs s

theorem put_history_lru0 (key : MD5) (a1 a2 blocksize i : Nat) (s : RamCacheCLFUS)
    (vs : List Nat) :
    (put_history key a1 a2 blocksize i s vs).2.lru0 = s.lru0 ++ vs := by
  simp only [put_history, RamCacheCLFUS.lru0]
  exact requeue_victims_lru0 vs s

theorem put_history_max_bytes (key : MD5) (a1 a2 blocksize i : Nat) (s : RamCacheCLFUS)
    (vs : List Nat) :
    (put_history key a1 a2 blocksize i s vs).2.max_bytes = s.max_bytes := by
  simp only [put_history, RamCacheCLFUS.max_bytes]
  exact requeue_victims_max_bytes vs s

/-! Manual unfolding lemmas for the victim loop, and the byte-accounting
bound it maintains. -/

theorem put_loop_nil (key : MD5) (data : IOBufferData) (len : Nat) (copy : Bool)
    (a1 a2 size i : Nat) (eOpt : Option Nat) (fuel : Nat) (s : RamCacheCLFUS)
    (victims : List Nat) (hL : s.lru0 = []) :
    put_loop key data len copy a1 a2 size i eOpt fuel s victims =
      if s.bytes + (size : Int) ≤ s.max_bytes then
        put_insert key data len copy a1 a2 size i eOpt s victims
      else put_reject eOpt s victims := by
  obtain ⟨mb, by_, ob, hi, ib, nb, bk, l0, l1, sn, nc, cp, st, ni⟩ := s
  simp only [RamCacheCLFUS.lru0] at hL
  subst hL
  cases fuel <;> rfl

theorem put_loop_cons_zero (key : MD5) (data : IOBufferData) (len : Nat) (copy : Bool)
    (a1 a2 size i : Nat) (eOpt : Option Nat) (s : RamCacheCLFUS)
    (victims : List Nat) (v : Nat) (rest : List Nat) (hL : s.lru0 = v :: rest) :
    put_loop key data len copy a1 a2 size i eOpt 0 s victims = (0, s) := by
  obtain ⟨mb, by_, ob, hi, ib, nb, bk, l0, l1, sn, nc, cp, st, ni⟩ := s
  simp only [RamCacheCLFUS.lru0] at hL
  subst hL
  rfl

theorem put_loop_cons_succ (key : MD5) (data : IOBufferData) (len : Nat) (copy : Bool)
    (a1 a2 size i : Nat) (eOpt : Option Nat) (fuel : Nat) (s : RamCacheCLFUS)
    (victims : List Nat) (v : Nat) (rest : List Nat) (hL : s.lru0 = v :: rest) :
    put_loop key data len copy a1 a2 size i eOpt (fuel + 1) s victims =
      put_loop_step key data len copy a1 a2 size i eOpt
        (put_loop key data len copy a1 a2 size i eOpt fuel) v rest s victims := by
  obtain ⟨mb, by_, ob, hi, ib, nb, bk, l0, l1, sn, nc, cp, st, ni⟩ := s
  simp only [RamCacheCLFUS.lru0] at hL
  subst hL
  rfl

theorem put_reject_bytes (eOpt : Option Nat) (s : RamCacheCLFUS) (victims : List Nat) :
    (put_reject eOpt s victims).2.bytes = s.bytes + sumVB s.store victims := by
  cases eOpt <;> simp [put_reject, requeue_victims_bytes]

theorem put_reject_fst (eOpt : Option Nat) (s : RamCacheCLFUS) (victims : List Nat) :
    (put_reject eOpt s victims).1 = 0 := by
  cases eOpt <;> rfl

theorem put_reject_lru0 (eOpt : Option Nat) (s : RamCacheCLFUS) (victims : List Nat) :
    (put_reject eOpt s victims).2.lru0 = s.lru0 ++ victims := by
  cases eOpt <;> simp [put_reject, requeue_victims_lru0]

theorem put_loop_tail_bytes_bound (key : MD5) (data : IOBufferData) (len : Nat)
    (copy : Bool) (a1 a2 size i : Nat) (eOpt : Option Nat)
    (recurse : RamCacheCLFUS → List Nat → Nat × RamCacheCLFUS)
    (ve₁ : RamCacheCLFUSEntry) (t : RamCacheCLFUS) (victims₁ : List Nat) (B0 : Int)
    (hrec : ∀ (s' : RamCacheCLFUS) (victims' : List Nat),
      (∀ x ∈ s'.lru0, x ∉ s'.lru1) → (∀ x ∈ victims', x ∉ s'.lru1) →
      s'.bytes + sumVB s'.store victims' ≤ B0 → B0 ≤ s'.max_bytes →
      (recurse s' victims').2.bytes ≤ s'.max_bytes + 2 * ((ENTRY_OVERHEAD : Nat) : Int))
    (hd : ∀ x ∈ t.lru0, x ∉ t.lru1)
    (hv : ∀ x ∈ victims₁, x ∉ t.lru1)
    (hb : t.bytes + sumVB t.store victims₁ ≤ B0)
    (hB : B0 ≤ t.max_bytes) :
    (put_loop_tail key data len copy a1 a2 size i eOpt recurse ve₁ t victims₁).2.bytes ≤
      t.max_bytes + 2 * ((ENTRY_OVERHEAD : Nat) : Int) := by
  have hov : (0 : Int) ≤ ((ENTRY_OVERHEAD : Nat) : Int) := Int.ofNat_nonneg _
  have hnn := sumVB_nonneg t.store victims₁
  have h4b : (tick t).bytes = t.bytes := tick_bytes t
  have h4m : (tick t).max_bytes = t.max_bytes := tick_max_bytes t
  have h4s : sumVB (tick t).store victims₁ = sumVB t.store victims₁ :=
    sumVB_congr _ _ _ (fun w hw => tick_storeFind_of_not_mem t w (hv w hw))
  have h4d : ∀ x ∈ (tick t).lru0, x ∉ (tick t).lru1 := by
    intro x hx hx1
    exact hd x (tick_lru0 t ▸ hx) (tick_lru1_subset t x hx1)
  have h4v : ∀ x ∈ victims₁, x ∉ (tick t).lru1 :=
    fun x hx hx1 => hv x hx (tick_lru1_subset t x hx1)
  have h4nn := sumVB_nonneg (tick t).store victims₁
  cases eOpt with
  | none =>
    simp only [put_loop_tail]
    rw [put_history_bytes]
    omega
  | some eid =>
    simp only [put_loop_tail]
    cases hfe : storeFind (tick t).store eid with
    | none =>
      simp only []
      omega
    | some e =>
      by_cases hc : (tick t).bytes + (ve₁.size : Int) + (size : Int) > (tick t).max_bytes ∧
          CACHE_VALUE_GT ve₁.hits ve₁.size e.hits e.size
      · simp only [if_pos hc]
        rw [requeue_victims_bytes]
        omega
      · simp only [if_neg hc]
        by_cases hfit : (tick t).bytes + (size : Int) ≤ (tick t).max_bytes
        · simp only [if_pos hfit]
          have := put_insert_bytes key data len copy a1 a2 size i (some eid) (tick t)
            victims₁ hfit
          omega
        · simp only [if_neg hfit]
          have := hrec (tick t) victims₁ h4d h4v (by omega) (by omega)
          omega

theorem put_loop_step_bytes_bound (key : MD5) (data : IOBufferData) (len : Nat)
    (copy : Bool) (a1 a2 size i : Nat) (eOpt : Option Nat)
    (recurse : RamCacheCLFUS → List Nat → Nat × RamCacheCLFUS)
    (v : Nat) (rest : List Nat) (s : RamCacheCLFUS) (victims : List Nat) (B0 : Int)
    (hrec : ∀ (s' : RamCacheCLFUS) (victims' : List Nat),
      (∀ x ∈ s'.lru0, x ∉ s'.lru1) → (∀ x ∈ victims', x ∉ s'.lru1) →
      s'.bytes + sumVB s'.store victims' ≤ B0 → B0 ≤ s'.max_bytes →
      (recurse s' victims').2.bytes ≤ s'.max_bytes + 2 * ((ENTRY_OVERHEAD : Nat) : Int))
    (hL : s.lru0 = v :: rest)
    (hd : ∀ x ∈ s.lru0, x ∉ s.lru1)
    (hv : ∀ x ∈ victims, x ∉ s.lru1)
    (hb : s.bytes + sumVB s.store victims ≤ B0)
    (hB : B0 ≤ s.max_bytes) :
    (put_loop_step key data len copy a1 a2 size i eOpt recurse v rest s victims).2.bytes ≤
      s.max_bytes + 2 * ((ENTRY_OVERHEAD : Nat) : Int) := by
  have hov : (0 : Int) ≤ ((ENTRY_OVERHEAD : Nat) : Int) := Int.ofNat_nonneg _
  have hnn := sumVB_nonneg s.store victims
  have hvmem : v ∈ s.lru0 := by rw [hL]; exact List.mem_cons_self _ _
  have hvnot1 : v ∉ s.lru1 := hd v hvmem
  have hrestd : ∀ x ∈ rest, x ∉ s.lru1 := by
    intro x hx
    exact hd x (by rw [hL]; exact List.mem_cons_of_mem _ hx)
  have hv1 : ∀ x ∈ victims ++ [v], x ∉ s.lru1 := by
    intro x hx
    rcases List.mem_append.mp hx with h1 | h2
    · exact hv x h1
    · simp only [List.mem_singleton] at h2
      exact h2 ▸ hvnot1
  cases hf : storeFind s.store v with
  | none =>
    simp only [put_loop_step, hf]
    omega
  | some ve =>
    simp only [put_loop_step, hf]
    have hsum : ∀ tstore, tstore = storeSet s.store v { ve with hits := ve.hits * 2 % U64 } →
        sumVB tstore (victims ++ [v]) =
          sumVB s.store victims + ((ve.size + ENTRY_OVERHEAD : Nat) : Int) := by
      intro tstore ht
      subst ht
      rw [sumVB_storeSet_size s.store v ve { ve with hits := ve.hits * 2 % U64 } hf rfl]
      rw [sumVB_append]
      simp [sumVB, hf]
    split
    · exact put_loop_tail_bytes_bound key data len copy a1 a2 size i eOpt recurse _ _ _
        B0 hrec hrestd hv1
        (by rw [hsum _ rfl]; simp only [RamCacheCLFUS.bytes]; omega)
        (by simp only [RamCacheCLFUS.max_bytes]; omega)
    · exact put_loop_tail_bytes_bound key data len copy a1 a2 size i eOpt recurse _ _ _
        B0 hrec hrestd hv1
        (by rw [hsum _ rfl]; simp only [RamCacheCLFUS.bytes]; omega)
        (by simp only [RamCacheCLFUS.max_bytes]; omega)

theorem put_loop_bytes_bound (key : MD5) (data : IOBufferData) (len : Nat) (copy : Bool)
    (a1 a2 size i : Nat) (eOpt : Option Nat) :
    ∀ (fuel : Nat) (s : RamCacheCLFUS) (victims : List Nat) (B0 : Int),
      (∀ x ∈ s.lru0, x ∉ s.lru1) →
      (∀ x ∈ victims, x ∉ s.lru1) →
      s.bytes + sumVB s.store victims ≤ B0 →
      B0 ≤ s.max_bytes →
      (put_loop key data len copy a1 a2 size i eOpt fuel s victims).2.bytes ≤
        s.max_bytes + 2 * ((ENTRY_OVERHEAD : Nat) : Int) := by
  intro fuel
  induction fuel with
  | zero =>
    intro s victims B0 hd hv hb hB
    have hnn := sumVB_nonneg s.store victims
    have hov : (0 : Int) ≤ ((ENTRY_OVERHEAD : Nat) : Int) := Int.ofNat_nonneg _
    cases hL : s.lru0 with
    | nil =>
      rw [put_loop_nil key data len copy a1 a2 size i eOpt 0 s victims hL]
      by_cases hfit : s.bytes + (size : Int) ≤ s.max_bytes
      · rw [if_pos hfit]
        exact put_insert_bytes key data len copy a1 a2 size i eOpt s victims hfit
      · rw [if_neg hfit, put_reject_bytes]
        omega
    | cons v rest =>
      rw [put_loop_cons_zero key data len copy a1 a2 size i eOpt s victims v rest hL]
      simp only []
      omega
  | succ fuel ih =>
    intro s victims B0 hd hv hb hB
    have hnn := sumVB_nonneg s.store victims
    have hov : (0 : Int) ≤ ((ENTRY_OVERHEAD : Nat) : Int) := Int.ofNat_nonneg _
    cases hL : s.lru0 with
    | nil =>
      rw [put_loop_nil key data len copy a1 a2 size i eOpt (fuel + 1) s victims hL]
      by_cases hfit : s.bytes + (size : Int) ≤ s.max_bytes
      · rw [if_pos hfit]
        exact put_insert_bytes key data len copy a1 a2 size i eOpt s victims hfit
      · rw [if_neg hfit, put_reject_bytes]
        omega
    | cons v rest =>
      rw [put_loop_cons_succ key data len copy a1 a2 size i eOpt fuel s victims v rest hL]
      exact put_loop_step_bytes_bound key data len copy a1 a2 size i eOpt _ v rest s
        victims B0 (fun s' v' h1 h2 h3 h4 => ih s' v' B0 h1 h2 h3 h4) hL hd hv hb hB

/-! Helper bounds for the whole put path. -/

theorem put_main_bytes_bound (key : MD5) (data : IOBufferData) (len : Nat) (copy : Bool)
    (a1 a2 size i : Nat) (eOpt : Option Nat) (s : RamCacheCLFUS)
    (hd : ∀ x ∈ s.lru0, x ∉ s.lru1) (hb : s.bytes ≤ s.max_bytes) :
    (put_main key data len copy a1 a2 size i eOpt s).2.bytes ≤
      s.max_bytes + 2 * ((ENTRY_OVERHEAD : Nat) : Int) := by
  have hov : (0 : Int) ≤ ((ENTRY_OVERHEAD : Nat) : Int) := Int.ofNat_nonneg _
  cases eOpt with
  | none =>
    by_cases htriv : s.lru1 = [] ∧ s.bytes + (size : Int) ≤ s.max_bytes
    · simp only [put_main, if_pos htriv]
      exact put_insert_bytes key data len copy a1 a2 size i none s [] htriv.2
    · simp only [put_main, if_neg htriv]
      by_cases hrej : s.history ≥ s.objects ∧
          nth s.seen (key.w3 % nth bucket_sizes s.ibuckets 0) 0 ≠ (key.w3 >>> 16) % 2 ^ 16
      · rw [if_pos hrej]
        simp only [RamCacheCLFUS.bytes, RamCacheCLFUS.max_bytes]
        omega
      · rw [if_neg hrej]
        exact put_loop_bytes_bound key data len copy a1 a2 size i none _ _ [] s.bytes
          hd (by simp) (by simp [sumVB]) hb
  | some eid =>
    by_cases htriv : s.lru1 = [] ∧ s.bytes + (size : Int) ≤ s.max_bytes
    · simp only [put_main, if_pos htriv]
      exact put_insert_bytes key data len copy a1 a2 size i (some eid) s [] htriv.2
    · simp only [put_main, if_neg htriv]
      exact put_loop_bytes_bound key data len copy a1 a2 size i (some eid) _ _ [] s.bytes
        hd (by simp) (by simp [sumVB]) hb


theorem put_lookup_mem (key : MD5) (a1 a2 : Nat) (chain : List Nat) :
    ∀ (s : RamCacheCLFUS) (eid : Nat),
      (put_lookup key a1 a2 s chain).1 = some eid → eid ∈ chain := by
  induction chain with
  | nil => intro s eid h; exact absurd h (by simp [put_lookup])
  | cons x rest ih =>
    intro s eid h
    cases hf : storeFind s.store x with
    | none =>
      simp only [put_lookup, hf] at h
      exact List.mem_cons_of_mem _ (ih s eid h)
    | some e =>
      by_cases hk : e.key = key
      · by_cases haux : e.auxkey1 = a1 ∧ e.auxkey2 = a2
        · simp only [put_lookup, hf, if_pos hk, if_pos haux] at h
          have : x = eid := by simpa using h
          exact this ▸ List.mem_cons_self _ _
        · simp only [put_lookup, hf, if_pos hk, if_neg haux] at h
          exact List.mem_cons_of_mem _ (ih (destroy s x) eid h)
      · simp only [put_lookup, hf, if_neg hk] at h
        exact List.mem_cons_of_mem _ (ih s eid h)


/-- C2 (corrected): after every completed put that is not an in-place
update of a resident entry (no resident entry matches digest and both aux
keys), if bytes ≤ max_bytes held before the call then afterwards
bytes ≤ max_bytes + 2·ENTRY_OVERHEAD.  The original bound
bytes ≤ max_bytes is refuted by c2_counterexample: the in-place update
path (lines 457-480) applies the size delta with no capacity check. -/
theorem c2_put_capacity_bound (s : RamCacheCLFUS) (key : MD5) (data : IOBufferData)
    (len : Nat) (copy : Bool) (a1 a2 : Nat)
    (hd : ∀ x ∈ s.lru0, x ∉ s.lru1)
    (hkn : keysNodup s.store)
    (hres : ∀ eid ∈ nth s.bucket (key.w3 % s.nbuckets) [], ∀ e,
      storeFind s.store eid = some e → e.key = key → e.auxkey1 = a1 → e.auxkey2 = a2 →
      e.lru = true)
    (hb : s.bytes ≤ s.max_bytes) :
    (put s key data len copy a1 a2).2.bytes ≤
      s.max_bytes + 2 * ((ENTRY_OVERHEAD : Nat) : Int) := by
  have hov : (0 : Int) ≤ ((ENTRY_OVERHEAD : Nat) : Int) := Int.ofNat_nonneg _
  by_cases hmz : s.max_bytes = 0
  · simp only [put, if_pos hmz]
    omega
  · simp only [put, if_neg hmz]
    rcases hpl : put_lookup key a1 a2 s (nth s.bucket (key.w3 % s.nbuckets) []) with ⟨eOpt, s₁⟩
    have h1b : s₁.bytes ≤ s.bytes := by
      have := put_lookup_bytes_le key a1 a2 (nth s.bucket (key.w3 % s.nbuckets) []) s
      rw [hpl] at this
      exact this
    have h1m : s₁.max_bytes = s.max_bytes := by
      have := put_lookup_max_bytes key a1 a2 (nth s.bucket (key.w3 % s.nbuckets) []) s
      rw [hpl] at this
      exact this
    have h1d : ∀ x ∈ s₁.lru0, x ∉ s₁.lru1 := by
      intro x hx hx1
      have hx0 := put_lookup_lru0_subset key a1 a2 (nth s.bucket (key.w3 % s.nbuckets) []) s x
        (by rw [hpl]; exact hx)
      have hx1' := put_lookup_lru1_subset key a1 a2 (nth s.bucket (key.w3 % s.nbuckets) []) s x
        (by rw [hpl]; exact hx1)
      exact hd x hx0 hx1'
    cases eOpt with
    | none =>
      simp only [hpl]
      have := put_main_bytes_bound key data len copy a1 a2
        (if copy then len else data.block_size) (key.w3 % s.nbuckets) none s₁ h1d (by omega)
      omega
    | some eid =>
      simp only [hpl]
      have hfnd := put_lookup_found key a1 a2 (nth s.bucket (key.w3 % s.nbuckets) []) s eid
        (by rw [hpl])
      rw [hpl] at hfnd
      obtain ⟨e, hfe0, hek, hea1, hea2⟩ := hfnd
      have hfe : storeFind s₁.store eid = some e := hfe0
      have hmem := put_lookup_mem key a1 a2 (nth s.bucket (key.w3 % s.nbuckets) []) s eid
        (by rw [hpl])
      have horig : storeFind s.store eid = some e := by
        have := put_lookup_store_weak key a1 a2 (nth s.bucket (key.w3 % s.nbuckets) []) s hkn
          eid e (by rw [hpl]; exact hfe)
        exact this
      have hlru : e.lru = true := hres eid hmem e horig hek hea1 hea2
      simp only [hfe]
      have hlru' : ¬(({ e with hits := (e.hits + 1) % U64 } : RamCacheCLFUSEntry).lru = false) := by
        simp [hlru]
      rw [if_neg hlru']
      have h2d : ∀ x ∈ s₁.lru0, x ∉ eraseId s₁.lru1 eid := by
        intro x hx hx1
        exact h1d x hx (mem_of_mem_eraseId _ _ _ hx1)
      have := put_main_bytes_bound key data len copy a1 a2
        (if copy then len else data.block_size) (key.w3 % s.nbuckets) (some eid)
        { s₁ with store := storeSet s₁.store eid { e with hits := (e.hits + 1) % U64 },
                  lru1 := eraseId s₁.lru1 eid } h2d
        (by simp only [RamCacheCLFUS.bytes, RamCacheCLFUS.max_bytes]; omega)
      rw [← h1m]
      simpa using this

/-- C2 counterexample: from an empty cache with max_bytes = 1000, store a
3-byte entry (bytes = 259 ≤ 1000), then put the same key with the same
aux keys and a 2000-byte payload.  The put returns stored via the
in-place update and leaves bytes = 2256 > max_bytes. -/
theorem c2_counterexample :
    trA1.bytes ≤ trA1.max_bytes ∧ trB2.1 = 1 ∧ trB2.2.max_bytes = 1000 ∧
      trB2.2.bytes = 2256 ∧ ¬(trB2.2.bytes ≤ trB2.2.max_bytes) := by
  decide

/-- C2 witness: the capacity bound applied to a concrete put into a
freshly initialised cache. -/
theorem c2_put_capacity_bound_witness :
    (∀ x ∈ cache1000.lru0, x ∉ cache1000.lru1) ∧ keysNodup cache1000.store ∧
      cache1000.bytes ≤ cache1000.max_bytes ∧
      (put cache1000 key1 ⟨[1, 2, 3], 3⟩ 3 true 0 0).2.bytes ≤
        cache1000.max_bytes + 2 * ((ENTRY_OVERHEAD : Nat) : Int) :=
  ⟨by decide, by decide, by decide,
    c2_put_capacity_bound cache1000 key1 ⟨[1, 2, 3], 3⟩ 3 true 0 0 (by decide) (by decide)
      (by decide) (by decide)⟩

/-- C1 (code_bug): the put/get round-trip fails on the in-place update
path because RamCacheCLFUS::put (lines 457-480) never assigns `e->len`
there.  After storing key1 with a 3-byte payload and then re-putting it
with the 5-byte payload [4,5,6,7,8] (stored, returned 1), an immediately
following get hits but copies the stale previous len = 3 bytes out of the
new buffer, yielding [4,5,6] ≠ [4,5,6,7,8]. -/
theorem c1_put_get_stale_len :
    trA2.1 = 1 ∧
    (get oracleNone trA2.2 key1 0 0).1 = 1 ∧
    (get oracleNone trA2.2 key1 0 0).2.1 = some ⟨[4, 5, 6], 3⟩ ∧
    (some (⟨[4, 5, 6], 3⟩ : IOBufferData) ≠
      some (⟨[4, 5, 6, 7, 8], 5⟩ : IOBufferData)) := by
  decide

/-- C3 (code_bug): the history clock tick does not halve hits; the source
executes `e->hits <<= 1` (line 245), doubling them.  In the reachable
state trC2 the oldest (only) L1 ghost is entry 1 with hits = 1: the spec
says the tick halves its hits to 0 and frees it, but `tick` doubles them
to 2, requeues the ghost with hits floored to 1, and leaves `history`
unchanged — so a ghost's hits never decay to zero through ticks. -/
theorem c3_tick_hits_not_halved :
    trC2.lru1 = [1] ∧
    (storeFind trC2.store 1).map (fun e => e.hits) = some 1 ∧
    (tick trC2).lru1 = [1] ∧
    (storeFind (tick trC2).store 1).map (fun e => e.hits) = some 1 ∧
    (tick trC2).history = trC2.history := by
  decide

theorem fixup_walk_spec (key : MD5) (o1 o2 n1 n2 : Nat) (chain : List Nat)
    (s : RamCacheCLFUS) :
    ((fixup_walk key o1 o2 n1 n2 s chain).1 = 0 ∨
      (fixup_walk key o1 o2 n1 n2 s chain).1 = 1) ∧
    ((fixup_walk key o1 o2 n1 n2 s chain).1 = 1 ↔
      ∃ eid ∈ chain, ∃ e, storeFind s.store eid = some e ∧ e.key = key ∧
        e.auxkey1 = o1 ∧ e.auxkey2 = o2) ∧
    ((fixup_walk key o1 o2 n1 n2 s chain).1 = 0 →
      (fixup_walk key o1 o2 n1 n2 s chain).2 = s) ∧
    ((fixup_walk key o1 o2 n1 n2 s chain).1 = 1 →
      ∃ eid e, storeFind s.store eid = some e ∧ e.key = key ∧ e.auxkey1 = o1 ∧
        e.auxkey2 = o2 ∧
        (fixup_walk key o1 o2 n1 n2 s chain).2 =
          { s with store := storeSet s.store eid { e with auxkey1 := n1, auxkey2 := n2 } }) := by
  induction chain with
  | nil =>
    refine ⟨Or.inl rfl, ?_, fun _ => rfl, fun h => absurd h (by simp [fixup_walk])⟩
    simp [fixup_walk]
  | cons x rest ih =>
    cases hf : storeFind s.store x with
    | none =>
      obtain ⟨ih0, ih1, ih2, ih3⟩ := ih
      refine ⟨?_, ?_, ?_, ?_⟩
      · simpa only [fixup_walk, hf] using ih0
      · simp only [fixup_walk, hf]
        rw [ih1]
        constructor
        · rintro ⟨eid, hm, e, he, hx⟩
          exact ⟨eid, List.mem_cons_of_mem _ hm, e, he, hx⟩
        · rintro ⟨eid, hm, e, he, hx⟩
          rcases List.mem_cons.mp hm with h1 | h2
          · subst h1
            rw [hf] at he
            exact absurd he (by simp)
          · exact ⟨eid, h2, e, he, hx⟩
      · simpa only [fixup_walk, hf] using ih2
      · simp only [fixup_walk, hf]
        intro h
        obtain ⟨eid, e, he, hx⟩ := ih3 h
        exact ⟨eid, e, he, hx⟩
    | some e =>
      by_cases hmt : e.key = key ∧ e.auxkey1 = o1 ∧ e.auxkey2 = o2
      · refine ⟨Or.inr ?_, ?_, ?_, ?_⟩
        · simp [fixup_walk, hf, hmt]
        · simp only [fixup_walk, hf, if_pos hmt]
          constructor
          · intro _
            exact ⟨x, List.mem_cons_self _ _, e, hf, hmt.1, hmt.2.1, hmt.2.2⟩
          · intro _
            trivial
        · simp only [fixup_walk, hf, if_pos hmt]
          intro h
          exact absurd h (by simp)
        · simp only [fixup_walk, hf, if_pos hmt]
          intro _
          exact ⟨x, e, hf, hmt.1, hmt.2.1, hmt.2.2, rfl⟩
      · obtain ⟨ih0, ih1, ih2, ih3⟩ := ih
        refine ⟨?_, ?_, ?_, ?_⟩
        · simpa only [fixup_walk, hf, if_neg hmt] using ih0
        · simp only [fixup_walk, hf, if_neg hmt]
          rw [ih1]
          constructor
          · rintro ⟨eid, hm, e', he, hx⟩
            exact ⟨eid, List.mem_cons_of_mem _ hm, e', he, hx⟩
          · rintro ⟨eid, hm, e', he, hx⟩
            rcases List.mem_cons.mp hm with h1 | h2
            · subst h1
              rw [hf] at he
              have : e = e' := by simpa using he
              subst this
              exact absurd hx hmt
            · exact ⟨eid, h2, e', he, hx⟩
        · simpa only [fixup_walk, hf, if_neg hmt] using ih2
        · simp only [fixup_walk, hf, if_neg hmt]
          exact ih3

/-- C7 (confirmed): fixup returns found (1) iff some entry in the bucket
chain matches the digest and both old aux keys; on success exactly the
first matching entry's aux keys are overwritten and every other entry,
both queues, the hash table, and all counters are unchanged; on no match
the state is returned untouched. -/
theorem c7_fixup_frame (s : RamCacheCLFUS) (key : MD5) (o1 o2 n1 n2 : Nat)
    (hmz : s.max_bytes ≠ 0) :
    ((fixup s key o1 o2 n1 n2).1 = 1 ↔
      ∃ eid ∈ nth s.bucket (key.w3 % s.nbuckets) [], ∃ e,
        storeFind s.store eid = some e ∧ e.key = key ∧ e.auxkey1 = o1 ∧
          e.auxkey2 = o2) ∧
    ((fixup s key o1 o2 n1 n2).1 = 0 → (fixup s key o1 o2 n1 n2).2 = s) ∧
    ((fixup s key o1 o2 n1 n2).1 = 1 → ∃ eid e,
      storeFind s.store eid = some e ∧ e.key = key ∧ e.auxkey1 = o1 ∧ e.auxkey2 = o2 ∧
      storeFind (fixup s key o1 o2 n1 n2).2.store eid =
        some { e with auxkey1 := n1, auxkey2 := n2 } ∧
      (∀ j, j ≠ eid →
        storeFind (fixup s key o1 o2 n1 n2).2.store j = storeFind s.store j)) ∧
    (fixup s key o1 o2 n1 n2).2.lru0 = s.lru0 ∧
    (fixup s key o1 o2 n1 n2).2.lru1 = s.lru1 ∧
    (fixup s key o1 o2 n1 n2).2.bucket = s.bucket ∧
    (fixup s key o1 o2 n1 n2).2.bytes = s.bytes ∧
    (fixup s key o1 o2 n1 n2).2.objects = s.objects ∧
    (fixup s key o1 o2 n1 n2).2.history = s.history ∧
    (fixup s key o1 o2 n1 n2).2.seen = s.seen := by
  have hsp := fixup_walk_spec key o1 o2 n1 n2 (nth s.bucket (key.w3 % s.nbuckets) []) s
  obtain ⟨h01, h1, h0, hrec⟩ := hsp
  have hfx : fixup s key o1 o2 n1 n2 =
      fixup_walk key o1 o2 n1 n2 s (nth s.bucket (key.w3 % s.nbuckets) []) := by
    simp [fixup, hmz]
  rw [hfx]
  have hframe : (fixup_walk key o1 o2 n1 n2 s
        (nth s.bucket (key.w3 % s.nbuckets) [])).2.lru0 = s.lru0 ∧
      (fixup_walk key o1 o2 n1 n2 s (nth s.bucket (key.w3 % s.nbuckets) [])).2.lru1 = s.lru1 ∧
      (fixup_walk key o1 o2 n1 n2 s (nth s.bucket (key.w3 % s.nbuckets) [])).2.bucket =
        s.bucket ∧
      (fixup_walk key o1 o2 n1 n2 s (nth s.bucket (key.w3 % s.nbuckets) [])).2.bytes =
        s.bytes ∧
      (fixup_walk key o1 o2 n1 n2 s (nth s.bucket (key.w3 % s.nbuckets) [])).2.objects =
        s.objects ∧
      (fixup_walk key o1 o2 n1 n2 s (nth s.bucket (key.w3 % s.nbuckets) [])).2.history =
        s.history ∧
      (fixup_walk key o1 o2 n1 n2 s (nth s.bucket (key.w3 % s.nbuckets) [])).2.seen =
        s.seen := by
    rcases h01 with hz | ho
    · rw [h0 hz]
      exact ⟨rfl, rfl, rfl, rfl, rfl, rfl, rfl⟩
    · obtain ⟨eid, e, _, _, _, _, heq⟩ := hrec ho
      rw [heq]
      exact ⟨rfl, rfl, rfl, rfl, rfl, rfl, rfl⟩
  refine ⟨h1, h0, ?_, hframe⟩
  intro ho
  obtain ⟨eid, e, hfe, hk, ha1, ha2, heq⟩ := hrec ho
  refine ⟨eid, e, hfe, hk, ha1, ha2, ?_, ?_⟩
  · rw [heq]
    exact storeFind_storeSet_self s.store eid e _ hfe
  · intro j hj
    rw [heq]
    exact storeFind_storeSet_ne s.store eid j _ hj

/-- C7 witness: the fixup frame applied to a concrete single-entry
cache. -/
theorem c7_fixup_frame_witness :
    wsC7.max_bytes ≠ 0 ∧
    ((fixup wsC7 key1 3 4 7 8).1 = 1 ↔
      ∃ eid ∈ nth wsC7.bucket (key1.w3 % wsC7.nbuckets) [], ∃ e,
        storeFind wsC7.store eid = some e ∧ e.key = key1 ∧ e.auxkey1 = 3 ∧
          e.auxkey2 = 4) ∧
    (fixup wsC7 key1 3 4 7 8).2.lru0 = wsC7.lru0 :=
  ⟨by decide, (c7_fixup_frame wsC7 key1 3 4 7 8 (by decide)).1,
    (c7_fixup_frame wsC7 key1 3 4 7 8 (by decide)).2.2.2.1⟩

/-! Helpers and claim C6 (decompression failure on get). -/

theorem eraseId_append_cons (pre post : List Nat) (i : Nat) (h : i ∉ pre) :
    eraseId (pre ++ i :: post) i = pre ++ post := by
  induction pre with
  | nil => simp [eraseId]
  | cons x xs ih =>
    simp only [List.mem_cons, not_or] at h
    simp only [List.cons_append, eraseId, if_neg (Ne.symm h.1)]
    exact congrArg (fun t => x :: t) (ih h.2)

theorem destroy_resident (s : RamCacheCLFUS) (i : Nat) (e : RamCacheCLFUSEntry)
    (hf : storeFind s.store i = some e) (hl : e.lru = false) :
    (destroy s i).objects = s.objects - 1 ∧
    (destroy s i).bytes = s.bytes - ((e.size + ENTRY_OVERHEAD : Nat) : Int) ∧
    (destroy s i).lru0 = eraseId s.lru0 i ∧
    (destroy s i).lru1 = s.lru1 ∧
    (destroy s i).nbuckets = s.nbuckets ∧
    (destroy s i).bucket =
      setNth s.bucket (e.key.w3 % s.nbuckets) (eraseId (nth s.bucket (e.key.w3 % s.nbuckets) []) i) ∧
    (destroy s i).store = storeErase s.store i := by
  simp [destroy, hf, hl, lruRemove, move_compressed_bytes, move_compressed_store,
    move_compressed_lru0, move_compressed_lru1, move_compressed_bucket,
    move_compressed_objects, move_compressed_history, move_compressed_nbuckets]

theorem getWalk_skip (dec : Decomp) (key : MD5) (a1 a2 : Nat) (s : RamCacheCLFUS)
    (pre rest : List Nat)
    (hpre : ∀ j ∈ pre, ∀ ej, storeFind s.store j = some ej →
      ¬(ej.key = key ∧ ej.auxkey1 = a1 ∧ ej.auxkey2 = a2)) :
    getWalk dec key a1 a2 s (pre ++ rest) = getWalk dec key a1 a2 s rest := by
  induction pre with
  | nil => rfl
  | cons x xs ih =>
    cases hf : storeFind s.store x with
    | none =>
      simp only [List.cons_append, getWalk, hf]
      exact ih (fun j hj ej hje => hpre j (List.mem_cons_of_mem _ hj) ej hje)
    | some ej =>
      have hnm := hpre x (List.mem_cons_self _ _) ej hf
      simp only [List.cons_append, getWalk, hf, if_neg hnm]
      exact ih (fun j hj ej' hje => hpre j (List.mem_cons_of_mem _ hj) ej' hje)

theorem lruRemove_false (s : RamCacheCLFUS) (i : Nat) :
    lruRemove s false i = { s with lru0 := eraseId s.lru0 i } := by
  simp [lruRemove]

theorem lruEnqueue_false (s : RamCacheCLFUS) (i : Nat) :
    lruEnqueue s false i = { s with lru0 := s.lru0 ++ [i] } := by
  simp [lruEnqueue]

/-- C6 (confirmed): a get that matches a resident compressed entry whose
decompression fails destroys the entry — it is removed from L0, from the
history queue it was never on, and from its hash chain, the store frees
it, `objects` is decremented and `bytes` debited by size+ENTRY_OVERHEAD —
and the get returns miss (0) with no buffer. -/
theorem c6_get_decompress_failure (dec : Decomp) (s : RamCacheCLFUS) (key : MD5)
    (a1 a2 : Nat) (pre post : List Nat) (eid : Nat) (e : RamCacheCLFUSEntry)
    (hmz : s.max_bytes ≠ 0)
    (hchain : nth s.bucket (key.w3 % s.nbuckets) [] = pre ++ eid :: post)
    (hpre : ∀ j ∈ pre, ∀ ej, storeFind s.store j = some ej →
      ¬(ej.key = key ∧ ej.auxkey1 = a1 ∧ ej.auxkey2 = a2))
    (hfe : storeFind s.store eid = some e)
    (hm : e.key = key ∧ e.auxkey1 = a1 ∧ e.auxkey2 = a2)
    (hres : e.lru = false)
    (hcmp : e.compressed ≠ 0)
    (hfail : decompressStep dec e.compressed (bufData e.data) e.compressed_len e.len = none)
    (hkn : keysNodup s.store)
    (hnd : s.lru0.Nodup) (hl1 : eid ∉ s.lru1)
    (hpre2 : eid ∉ pre) (hpost : eid ∉ post)
    (hblen : key.w3 % s.nbuckets < s.bucket.length) :
    (get dec s key a1 a2).1 = 0 ∧
    (get dec s key a1 a2).2.1 = none ∧
    storeFind (get dec s key a1 a2).2.2.store eid = none ∧
    eid ∉ (get dec s key a1 a2).2.2.lru0 ∧
    eid ∉ (get dec s key a1 a2).2.2.lru1 ∧
    (get dec s key a1 a2).2.2.objects = s.objects - 1 ∧
    (get dec s key a1 a2).2.2.bytes = s.bytes - ((e.size + ENTRY_OVERHEAD : Nat) : Int) ∧
    eid ∉ nth (get dec s key a1 a2).2.2.bucket (key.w3 % s.nbuckets) [] := by
  have hget : get dec s key a1 a2 =
      getWalk dec key a1 a2 s (eid :: post) := by
    simp only [CLFUS.get, if_neg hmz, hchain]
    exact getWalk_skip dec key a1 a2 s pre (eid :: post) hpre
  rw [hget]
  simp only [getWalk, hfe, if_pos hm, if_pos hres, if_pos hcmp, hfail, hres,
    lruRemove_false, lruEnqueue_false, move_compressed_store, move_compressed_lru0,
    move_compressed_lru1, move_compressed_bucket, move_compressed_nbuckets,
    move_compressed_objects, move_compressed_bytes, move_compressed_max_bytes,
    move_compressed_history, move_compressed_seen, move_compressed_ibuckets,
    move_compressed_next_id]
  have hfS : storeFind (storeSet s.store eid
      { key := e.key, auxkey1 := e.auxkey1, auxkey2 := e.auxkey2,
        hits := (e.hits + 1) % U64, size := e.size, len := e.len,
        compressed_len := e.compressed_len, compressed := e.compressed,
        incompressible := e.incompressible, lru := false, copy := e.copy,
        data := e.data }) eid = some
      { key := e.key, auxkey1 := e.auxkey1, auxkey2 := e.auxkey2,
        hits := (e.hits + 1) % U64, size := e.size, len := e.len,
        compressed_len := e.compressed_len, compressed := e.compressed,
        incompressible := e.incompressible, lru := false, copy := e.copy,
        data := e.data } :=
    storeFind_storeSet_self s.store eid e _ hfe
  simp only [destroy, hfS, lruRemove_false, lruEnqueue_false, move_compressed_store,
    move_compressed_lru0, move_compressed_lru1, move_compressed_bucket,
    move_compressed_nbuckets, move_compressed_objects, move_compressed_bytes,
    move_compressed_max_bytes, move_compressed_history, move_compressed_seen,
    move_compressed_ibuckets, move_compressed_next_id, if_true]
  refine ⟨trivial, trivial, ?_, ?_, hl1, by trivial, by trivial, ?_⟩
  · exact storeFind_storeErase_self _ eid (keysNodup_storeSet s.store eid _ hkn)
  · rw [eraseId_append_not_mem _ _ (not_mem_eraseId_of_nodup s.lru0 eid hnd)]
    exact not_mem_eraseId_of_nodup s.lru0 eid hnd
  · have hkw : e.key = key := hm.1
    rw [hkw, nth_setNth_self s.bucket (key.w3 % s.nbuckets) _ [] hblen, hchain,
      eraseId_append_cons pre post eid hpre2]
    intro hc
    rcases List.mem_append.mp hc with h1 | h2
    · exact hpre2 h1
    · exact hpost h2

/-- C6 witness: the theorem applied to a concrete single-entry cache with
a compressed entry and an always-failing decompressor. -/
theorem c6_get_decompress_failure_witness :
    (get oracleNone wsC6 key1 0 0).1 = 0 ∧
    storeFind (get oracleNone wsC6 key1 0 0).2.2.store 5 = none ∧
    (get oracleNone wsC6 key1 0 0).2.2.objects = wsC6.objects - 1 :=
  have h := c6_get_decompress_failure oracleNone wsC6 key1 0 0 [] [] 5 entryC6
    (by decide) (by decide) (fun j hj => absurd hj (List.not_mem_nil j)) (by decide)
    (by decide) (by decide) (by decide) (by decide) (by decide) (by decide) (by decide)
    (by decide) (by decide) (by decide)
  ⟨h.1, h.2.2.1, h.2.2.2.2.2.1⟩

/-! Frame lemmas shared by the fresh-key (no hash match) paths of put:
the history clock tick, the Lhistory ghost creation, and the seen filter. -/

theorem tick_storeFind_none (s : RamCacheCLFUS) (x : Nat)
    (h : storeFind s.store x = none) : storeFind (tick s).store x = none := by
  cases hL : s.lru1 with
  | nil => simpa [tick, hL]
  | cons eid rest =>
    cases hf : storeFind s.store eid with
    | none => simpa [tick, hL, hf]
    | some e =>
      by_cases hh : e.hits * 2 % U64 ≠ 0
      · simp only [tick, hL, hf, if_pos hh]
        split
        · simp only [RamCacheCLFUS.store]
          exact storeFind_storeSet_none _ _ _ _ h
        · split
          · simp only [RamCacheCLFUS.store]
            exact storeFind_storeSet_none _ _ _ _ h
          · rename_i fid frest hm
            cases hf2 : storeFind (storeSet s.store eid { e with hits := REQUEUE_HITS (e.hits * 2 % U64) }) fid with
            | none => simpa [tickFree, hf2] using storeFind_storeSet_none s.store eid x _ h
            | some e2 =>
              simp only [tickFree, hf2, RamCacheCLFUS.store]
              exact storeFind_storeErase_none _ _ _ (storeFind_storeSet_none _ _ _ _ h)
      · simp only [tick, hL, hf, if_neg hh]
        cases hf2 : storeFind s.store eid with
        | none => simpa [tickFree, hf2]
        | some e2 => simp only [tickFree, hf2, RamCacheCLFUS.store]
                     exact storeFind_storeErase_none _ _ _ h

theorem ghost_tail_facts (key : MD5) (a1 a2 bs i : Nat) (s T : RamCacheCLFUS)
    (v : Nat) (ve₁ : RamCacheCLFUSEntry) (rest : List Nat)
    (hT0 : T.lru0 = rest) (hT1 : T.lru1 = s.lru1) (hTn : T.next_id = s.next_id)
    (hTseen : T.seen = s.seen)
    (hTv : storeFind T.store v = some ve₁)
    (hv1 : v ∉ s.lru1)
    (hvne : v ≠ s.next_id)
    (hTnid : storeFind T.store s.next_id = none) :
    (put_history key a1 a2 bs i (tick T) [v]).1 = 0 ∧
    (put_history key a1 a2 bs i (tick T) [v]).2.lru0 = rest ++ [v] ∧
    (put_history key a1 a2 bs i (tick T) [v]).2.seen = s.seen ∧
    (put_history key a1 a2 bs i (tick T) [v]).2.lru1.getLast? = some s.next_id ∧
    s.next_id ∈ (put_history key a1 a2 bs i (tick T) [v]).2.lru1 ∧
    storeFind (put_history key a1 a2 bs i (tick T) [v]).2.store s.next_id = some
      { key := key, auxkey1 := a1, auxkey2 := a2, hits := 1, size := bs, len := 0,
        compressed_len := 0, compressed := 0, incompressible := false, lru := true,
        copy := false, data := none } ∧
    storeFind (put_history key a1 a2 bs i (tick T) [v]).2.store v = some
      { ve₁ with hits := REQUEUE_HITS ve₁.hits } := by
  have htv : storeFind (tick T).store v = some ve₁ := by
    rw [tick_storeFind_of_not_mem T v (hT1 ▸ hv1)]
    exact hTv
  have hrq : requeue_victims (tick T) [v] =
      { tick T with
        bytes := (tick T).bytes + ((ve₁.size + ENTRY_OVERHEAD : Nat) : Int),
        store := storeSet (tick T).store v { ve₁ with hits := REQUEUE_HITS ve₁.hits },
        lru0 := (tick T).lru0 ++ [v] } := by
    simp [requeue_victims, htv]
  refine ⟨rfl, ?_, ?_, ?_, ?_, ?_, ?_⟩
  · simp only [put_history, RamCacheCLFUS.lru0, hrq]
    rw [tick_lru0, hT0]
  · simp only [put_history, RamCacheCLFUS.seen, hrq]
    rw [tick_seen, hTseen]
  · simp only [put_history, RamCacheCLFUS.lru1, hrq]
    rw [List.getLast?_concat]
    try simp only [RamCacheCLFUS.next_id]
    rw [tick_next_id, hTn]
  · simp only [put_history, RamCacheCLFUS.lru1, hrq]
    try simp only [RamCacheCLFUS.next_id]
    rw [tick_next_id, hTn]
    exact List.mem_append_right _ (List.mem_singleton_self _)
  · simp only [put_history, RamCacheCLFUS.store, hrq]
    try simp only [RamCacheCLFUS.next_id]
    rw [tick_next_id, hTn]
    exact storeFind_append_right _ _ _
      (storeFind_storeSet_none _ _ _ _ (hTn ▸ tick_storeFind_none T s.next_id hTnid))
  · simp only [put_history, RamCacheCLFUS.store, hrq]
    try simp only [RamCacheCLFUS.next_id]
    rw [tick_next_id, hTn]
    rw [storeFind_append_left _ _ _ _ hvne]
    exact storeFind_storeSet_self _ _ _ _ htv

theorem put_loop_none_facts (key : MD5) (data : IOBufferData) (len : Nat) (copy : Bool)
    (a1 a2 size i fuel : Nat) (s : RamCacheCLFUS) (v : Nat) (rest : List Nat)
    (ve : RamCacheCLFUSEntry)
    (hL : s.lru0 = v :: rest)
    (he : storeFind s.store v = some ve)
    (hv1 : v ∉ s.lru1)
    (hvne : v ≠ s.next_id)
    (hnid : storeFind s.store s.next_id = none) :
    (put_loop key data len copy a1 a2 size i none (fuel + 1) s []).1 = 0 ∧
    (put_loop key data len copy a1 a2 size i none (fuel + 1) s []).2.lru0 = rest ++ [v] ∧
    (put_loop key data len copy a1 a2 size i none (fuel + 1) s []).2.seen = s.seen ∧
    (put_loop key data len copy a1 a2 size i none (fuel + 1) s []).2.lru1.getLast? =
      some s.next_id ∧
    s.next_id ∈ (put_loop key data len copy a1 a2 size i none (fuel + 1) s []).2.lru1 ∧
    storeFind (put_loop key data len copy a1 a2 size i none (fuel + 1) s []).2.store
      s.next_id = some
      { key := key, auxkey1 := a1, auxkey2 := a2, hits := 1, size := data.block_size,
        len := 0, compressed_len := 0, compressed := 0, incompressible := false,
        lru := true, copy := false, data := none } ∧
    storeFind (put_loop key data len copy a1 a2 size i none (fuel + 1) s []).2.store v =
      some { ve with hits := REQUEUE_HITS (ve.hits * 2 % U64) } := by
  rw [put_loop_cons_succ key data len copy a1 a2 size i none fuel s [] v rest hL]
  simp only [put_loop_step, he, List.nil_append]
  by_cases hcur : s.compressed = some v
  · rw [if_pos hcur]
    simp only [put_loop_tail]
    exact ghost_tail_facts key a1 a2 data.block_size i s _ v
      { ve with hits := ve.hits * 2 % U64 } rest rfl rfl rfl rfl
      (storeFind_storeSet_self _ _ _ _ he) hv1 hvne
      (storeFind_storeSet_none _ _ _ _ hnid)
  · rw [if_neg hcur]
    simp only [put_loop_tail]
    exact ghost_tail_facts key a1 a2 data.block_size i s _ v
      { ve with hits := ve.hits * 2 % U64 } rest rfl rfl rfl rfl
      (storeFind_storeSet_self _ _ _ _ he) hv1 hvne
      (storeFind_storeSet_none _ _ _ _ hnid)


theorem put_alloc_seen (key : MD5) (a1 a2 i : Nat) (s₁ : RamCacheCLFUS)
    (h : ¬(s₁.objects > ((s₁.nbuckets : Nat) : Int))) :
    (put_alloc key a1 a2 i s₁).2.seen = s₁.seen := by
  simp only [put_alloc]
  rw [if_neg h]

theorem put_insert_none_seen (key : MD5) (data : IOBufferData) (len : Nat) (copy : Bool)
    (a1 a2 size i : Nat) (s : RamCacheCLFUS)
    (h : ¬(s.objects > ((s.nbuckets : Nat) : Int))) :
    (put_insert key data len copy a1 a2 size i none s []).2.seen = s.seen := by
  have hir : insert_requeue size s [] = s := rfl
  simp only [put_insert, hir, put_insert_e]
  cases hf : storeFind (put_alloc key a1 a2 i s).2.store (put_alloc key a1 a2 i s).1 with
  | none =>
    simp only [hf]
    exact put_alloc_seen key a1 a2 i s h
  | some e =>
    simp only [hf, put_finish]
    try simp only [RamCacheCLFUS.seen]
    exact put_alloc_seen key a1 a2 i s h

theorem put_loop_fresh_reject (key : MD5) (data : IOBufferData) (len : Nat) (copy : Bool)
    (a1 a2 size i : Nat) (s₁ : RamCacheCLFUS) (v : Nat) (rest : List Nat)
    (ve : RamCacheCLFUSEntry) (fuel : Nat)
    (hfuel : fuel = rest.length + 1)
    (hL : s₁.lru0 = v :: rest)
    (he : storeFind s₁.store v = some ve)
    (hv1 : v ∉ s₁.lru1)
    (hvne : v ≠ s₁.next_id)
    (hnid : storeFind s₁.store s₁.next_id = none)
    (hfr1 : ∀ x ∈ s₁.lru1, x < s₁.next_id) :
    (∀ u : RamCacheCLFUS, u.lru1 = s₁.lru1 →
      put_loop key data len copy a1 a2 size i none fuel s₁ [] ≠ (0, u)) ∧
    (put_loop key data len copy a1 a2 size i none fuel s₁ []).2.seen = s₁.seen := by
  subst hfuel
  have H := put_loop_none_facts key data len copy a1 a2 size i rest.length s₁ v rest ve
    hL he hv1 hvne hnid
  refine ⟨?_, H.2.2.1⟩
  intro u hu heq
  have hmem := H.2.2.2.2.1
  rw [heq] at hmem
  have hmem2 : s₁.next_id ∈ u.lru1 := hmem
  rw [hu] at hmem2
  exact absurd (hfr1 _ hmem2) (Nat.lt_irrefl _)

/-- C4 (corrected): the seen-filter characterization for a fresh key,
away from the initial-fill shortcut and the drained-queue dead end. -/
theorem c4_seen_filter (s : RamCacheCLFUS) (key : MD5) (data : IOBufferData)
    (len : Nat) (copy : Bool) (a1 a2 : Nat)
    (hmz : s.max_bytes ≠ 0)
    (hnk : ∀ eid ∈ nth s.bucket (key.w3 % s.nbuckets) [], ∀ e,
      storeFind s.store eid = some e → e.key ≠ key)
    (hnt : ¬(s.lru1 = [] ∧ s.bytes + ((if copy then len else data.block_size : Nat) : Int) ≤ s.max_bytes))
    (hnv : s.lru0 ≠ [] ∨ s.bytes + ((if copy then len else data.block_size : Nat) : Int) ≤ s.max_bytes)
    (hobj : s.objects = ((s.lru0.length : Nat) : Int))
    (hsme : ∀ x ∈ s.lru0, (storeFind s.store x).isSome = true)
    (hd01 : ∀ x ∈ s.lru0, x ∉ s.lru1)
    (hfr0 : ∀ x ∈ s.lru0, x < s.next_id)
    (hfr1 : ∀ x ∈ s.lru1, x < s.next_id)
    (hnid : storeFind s.store s.next_id = none) :
    (put s key data len copy a1 a2 = (0, { s with seen := setNth s.seen (key.w3 % nth bucket_sizes s.ibuckets 0) ((key.w3 >>> 16) % 2 ^ 16) }) ↔
      s.history ≥ s.objects ∧
        nth s.seen (key.w3 % nth bucket_sizes s.ibuckets 0) 0 ≠ (key.w3 >>> 16) % 2 ^ 16) ∧
    (put s key data len copy a1 a2).2.seen =
      setNth s.seen (key.w3 % nth bucket_sizes s.ibuckets 0) ((key.w3 >>> 16) % 2 ^ 16) := by
  have hlk : put_lookup key a1 a2 s (nth s.bucket (key.w3 % s.nbuckets) []) = (none, s) :=
    put_lookup_nokey key a1 a2 s _ hnk
  have hput : put s key data len copy a1 a2 =
      put_main key data len copy a1 a2 (if copy then len else data.block_size)
        (key.w3 % s.nbuckets) none s := by
    simp only [put, if_neg hmz, hlk]
  rw [hput]
  simp only [put_main]
  rw [if_neg hnt]
  by_cases hrej : s.history ≥ s.objects ∧
      nth s.seen (key.w3 % nth bucket_sizes s.ibuckets 0) 0 ≠ (key.w3 >>> 16) % 2 ^ 16
  · rw [if_pos hrej]
    exact ⟨iff_of_true rfl hrej, rfl⟩
  · rw [if_neg hrej]
    have hkey : ∀ t : RamCacheCLFUS, t.lru0 = s.lru0 → t.lru1 = s.lru1 →
        t.bytes = s.bytes → t.max_bytes = s.max_bytes → t.store = s.store →
        t.next_id = s.next_id → t.objects = s.objects → t.nbuckets = s.nbuckets →
        (put_loop key data len copy a1 a2 (if copy then len else data.block_size)
            (key.w3 % s.nbuckets) none t.lru0.length t [] ≠ (0, t)) ∧
        (put_loop key data len copy a1 a2 (if copy then len else data.block_size)
            (key.w3 % s.nbuckets) none t.lru0.length t []).2.seen = t.seen := by
      intro t ht0 ht1 htb htm hts htn hto htnb
      cases hL0 : s.lru0 with
      | nil =>
        have hLt : t.lru0 = [] := by rw [ht0, hL0]
        rw [put_loop_nil key data len copy a1 a2 _ _ none _ t [] hLt]
        have hfit : t.bytes + ((if copy then len else data.block_size : Nat) : Int) ≤
            t.max_bytes := by
          rw [htb, htm]
          rcases hnv with h | h
          · exact absurd hL0 h
          · exact h
        rw [if_pos hfit]
        have hno : ¬(t.objects > ((t.nbuckets : Nat) : Int)) := by
          have h0 : t.objects = 0 := by rw [hto, hobj, hL0]; rfl
          rw [h0, htnb]
          omega
        constructor
        · intro heq
          have h1 : (put_insert key data len copy a1 a2
              (if copy then len else data.block_size) (key.w3 % s.nbuckets) none t []).1 =
              0 := congrArg Prod.fst heq
          rw [put_insert_fst] at h1
          exact Nat.one_ne_zero h1
        · exact put_insert_none_seen key data len copy a1 a2 _ _ t hno
      | cons v rest =>
        have hvmem : v ∈ s.lru0 := by rw [hL0]; exact List.mem_cons_self _ _
        obtain ⟨ve, he0⟩ : ∃ ve, storeFind s.store v = some ve :=
          Option.isSome_iff_exists.mp (hsme v hvmem)
        have H := put_loop_fresh_reject key data len copy a1 a2
          (if copy then len else data.block_size) (key.w3 % s.nbuckets) t v rest ve
          t.lru0.length (by rw [ht0, hL0]; rfl) (by rw [ht0, hL0]) (by rw [hts]; exact he0)
          (by rw [ht1]; exact hd01 v hvmem) (by rw [htn]; exact Nat.ne_of_lt (hfr0 v hvmem))
          (by rw [hts, htn]; exact hnid) (by rw [ht1, htn]; exact hfr1)
        exact ⟨H.1 t rfl, H.2⟩
    have HK := hkey { s with seen := setNth s.seen (key.w3 % nth bucket_sizes s.ibuckets 0) ((key.w3 >>> 16) % 2 ^ 16) } rfl rfl rfl rfl rfl rfl rfl rfl
    exact ⟨iff_of_false HK.1 hrej, HK.2⟩

/-- C4 counterexample: on an empty cache the initial-fill shortcut stores
a brand-new key even though the seen filter's rejection condition holds,
and leaves the seen array untouched. -/
theorem c4_counterexample :
    cache1000.history ≥ cache1000.objects ∧
    nth cache1000.seen (keyHi.w3 % nth bucket_sizes cache1000.ibuckets 0) 0 ≠
      (keyHi.w3 >>> 16) % 2 ^ 16 ∧
    (put cache1000 keyHi ⟨[1, 2, 3], 3⟩ 3 true 0 0).1 = 1 ∧
    (put cache1000 keyHi ⟨[1, 2, 3], 3⟩ 3 true 0 0).2.seen = cache1000.seen := by
  refine ⟨by decide, by decide, by decide, by decide⟩

/-- C4 witness: the filter characterization applied to a one-resident,
one-ghost cache and a fresh key, where the filter really rejects. -/
theorem c4_seen_filter_witness :
    (put trC2 keyHi5 ⟨[], 10⟩ 10 true 0 0 = (0, { trC2 with seen := setNth trC2.seen (keyHi5.w3 % nth bucket_sizes trC2.ibuckets 0) ((keyHi5.w3 >>> 16) % 2 ^ 16) }) ↔
      trC2.history ≥ trC2.objects ∧
        nth trC2.seen (keyHi5.w3 % nth bucket_sizes trC2.ibuckets 0) 0 ≠
          (keyHi5.w3 >>> 16) % 2 ^ 16) ∧
    (put trC2 keyHi5 ⟨[], 10⟩ 10 true 0 0).2.seen =
      setNth trC2.seen (keyHi5.w3 % nth bucket_sizes trC2.ibuckets 0)
        ((keyHi5.w3 >>> 16) % 2 ^ 16) := by
  have hch : nth trC2.bucket (keyHi5.w3 % trC2.nbuckets) [] = ([] : List Nat) := by decide
  exact c4_seen_filter trC2 keyHi5 ⟨[], 10⟩ 10 true 0 0 (by decide)
    (fun eid heid => absurd (hch ▸ heid) (List.not_mem_nil eid))
    (by decide) (by decide) (by decide) (by decide) (by decide) (by decide) (by decide)
    (by decide)


/-- C10 (confirmed): admission dynamics for a brand-new key.  When the
victim queue is non-empty and the initial-fill shortcut does not apply, a
fresh key that passes the seen filter dequeues exactly one L0 victim,
requeues it at the back of L0, returns not-stored and leaves a ghost for
the key at the back of L1; and the payload is installed (put returns
stored) only when it fits and L0 or L1 is empty. -/
theorem c10_fresh_key_admission (s : RamCacheCLFUS) (key : MD5) (data : IOBufferData)
    (len : Nat) (copy : Bool) (a1 a2 : Nat)
    (hmz : s.max_bytes ≠ 0)
    (hnk : ∀ eid ∈ nth s.bucket (key.w3 % s.nbuckets) [], ∀ e,
      storeFind s.store eid = some e → e.key ≠ key)
    (hsme : ∀ x ∈ s.lru0, (storeFind s.store x).isSome = true)
    (hd01 : ∀ x ∈ s.lru0, x ∉ s.lru1)
    (hfr0 : ∀ x ∈ s.lru0, x < s.next_id)
    (hnid : storeFind s.store s.next_id = none) :
    ((¬(s.history ≥ s.objects ∧ nth s.seen (key.w3 % nth bucket_sizes s.ibuckets 0) 0 ≠ (key.w3 >>> 16) % 2 ^ 16)) →
      ¬(s.lru1 = [] ∧ s.bytes + ((if copy then len else data.block_size : Nat) : Int) ≤ s.max_bytes) →
      ∀ v rest, s.lru0 = v :: rest →
        (put s key data len copy a1 a2).1 = 0 ∧
        (put s key data len copy a1 a2).2.lru0 = rest ++ [v] ∧
        (put s key data len copy a1 a2).2.lru1.getLast? = some s.next_id ∧
        storeFind (put s key data len copy a1 a2).2.store s.next_id = some { key := key, auxkey1 := a1, auxkey2 := a2, hits := 1, size := data.block_size, len := 0, compressed_len := 0, compressed := 0, incompressible := false, lru := true, copy := false, data := none }) ∧
    ((put s key data len copy a1 a2).1 = 1 →
      s.bytes + ((if copy then len else data.block_size : Nat) : Int) ≤ s.max_bytes ∧
        (s.lru1 = [] ∨ s.lru0 = [])) := by
  have hlk : put_lookup key a1 a2 s (nth s.bucket (key.w3 % s.nbuckets) []) = (none, s) :=
    put_lookup_nokey key a1 a2 s _ hnk
  have hput : put s key data len copy a1 a2 =
      put_main key data len copy a1 a2 (if copy then len else data.block_size)
        (key.w3 % s.nbuckets) none s := by
    simp only [put, if_neg hmz, hlk]
  rw [hput]
  simp only [put_main]
  constructor
  · intro hpass htriv v rest hL0
    rw [if_neg htriv]
    rw [if_neg hpass]
    have hvmem : v ∈ s.lru0 := by rw [hL0]; exact List.mem_cons_self _ _
    obtain ⟨ve, he0⟩ : ∃ ve, storeFind s.store v = some ve :=
      Option.isSome_iff_exists.mp (hsme v hvmem)
    have hkeyA : ∀ t : RamCacheCLFUS, t.lru0 = s.lru0 → t.lru1 = s.lru1 →
        t.store = s.store → t.next_id = s.next_id →
        (put_loop key data len copy a1 a2 (if copy then len else data.block_size)
            (key.w3 % s.nbuckets) none t.lru0.length t []).1 = 0 ∧
        (put_loop key data len copy a1 a2 (if copy then len else data.block_size)
            (key.w3 % s.nbuckets) none t.lru0.length t []).2.lru0 = rest ++ [v] ∧
        (put_loop key data len copy a1 a2 (if copy then len else data.block_size)
            (key.w3 % s.nbuckets) none t.lru0.length t []).2.lru1.getLast? =
          some s.next_id ∧
        storeFind (put_loop key data len copy a1 a2
            (if copy then len else data.block_size) (key.w3 % s.nbuckets) none
            t.lru0.length t []).2.store s.next_id = some { key := key, auxkey1 := a1, auxkey2 := a2, hits := 1, size := data.block_size, len := 0, compressed_len := 0, compressed := 0, incompressible := false, lru := true, copy := false, data := none } := by
      intro t ht0 ht1 hts htn
      have hfuel : t.lru0.length = rest.length + 1 := by rw [ht0, hL0]; rfl
      rw [hfuel]
      have H := put_loop_none_facts key data len copy a1 a2
        (if copy then len else data.block_size) (key.w3 % s.nbuckets) rest.length t v
        rest ve (by rw [ht0, hL0]) (by rw [hts]; exact he0)
        (by rw [ht1]; exact hd01 v hvmem) (by rw [htn]; exact Nat.ne_of_lt (hfr0 v hvmem))
        (by rw [hts, htn]; exact hnid)
      refine ⟨H.1, H.2.1, ?_, ?_⟩
      · rw [← htn]
        exact H.2.2.2.1
      · rw [← htn]
        exact H.2.2.2.2.2.1
    exact hkeyA { s with seen := setNth s.seen (key.w3 % nth bucket_sizes s.ibuckets 0) ((key.w3 >>> 16) % 2 ^ 16) } rfl rfl rfl rfl
  · have hkeyB : ∀ t : RamCacheCLFUS, t.lru0 = s.lru0 → t.lru1 = s.lru1 →
        t.bytes = s.bytes → t.max_bytes = s.max_bytes → t.store = s.store →
        t.next_id = s.next_id →
        ((put_loop key data len copy a1 a2 (if copy then len else data.block_size)
            (key.w3 % s.nbuckets) none t.lru0.length t []).1 = 1 →
          s.bytes + ((if copy then len else data.block_size : Nat) : Int) ≤ s.max_bytes ∧
            (s.lru1 = [] ∨ s.lru0 = [])) := by
      intro t ht0 ht1 htb htm hts htn
      cases hL0 : s.lru0 with
      | nil =>
        have hLt : t.lru0 = [] := by rw [ht0, hL0]
        rw [put_loop_nil key data len copy a1 a2 _ _ none _ t [] hLt]
        by_cases hfit : t.bytes + ((if copy then len else data.block_size : Nat) : Int) ≤
            t.max_bytes
        · rw [if_pos hfit]
          intro _
          refine ⟨?_, Or.inr rfl⟩
          rw [← htb, ← htm]
          exact hfit
        · rw [if_neg hfit]
          intro h1
          rw [put_reject_fst] at h1
          exact absurd h1 (by decide)
      | cons v rest =>
        have hvmem : v ∈ s.lru0 := by rw [hL0]; exact List.mem_cons_self _ _
        obtain ⟨ve, he0⟩ : ∃ ve, storeFind s.store v = some ve :=
          Option.isSome_iff_exists.mp (hsme v hvmem)
        have hfuel : t.lru0.length = rest.length + 1 := by rw [ht0, hL0]; rfl
        rw [hfuel]
        have H := put_loop_none_facts key data len copy a1 a2
          (if copy then len else data.block_size) (key.w3 % s.nbuckets) rest.length t v
          rest ve (by rw [ht0, hL0]) (by rw [hts]; exact he0)
          (by rw [ht1]; exact hd01 v hvmem)
          (by rw [htn]; exact Nat.ne_of_lt (hfr0 v hvmem))
          (by rw [hts, htn]; exact hnid)
        intro h1
        rw [H.1] at h1
        exact absurd h1 (by decide)
    by_cases htr : s.lru1 = [] ∧
        s.bytes + ((if copy then len else data.block_size : Nat) : Int) ≤ s.max_bytes
    · rw [if_pos htr]
      intro _
      exact ⟨htr.2, Or.inl htr.1⟩
    · rw [if_neg htr]
      by_cases hrej : s.history ≥ s.objects ∧
          nth s.seen (key.w3 % nth bucket_sizes s.ibuckets 0) 0 ≠ (key.w3 >>> 16) % 2 ^ 16
      · rw [if_pos hrej]
        intro h1
        exact absurd (show (0 : Nat) = 1 from h1) (by decide)
      · rw [if_neg hrej]
        exact hkeyB { s with seen := setNth s.seen (key.w3 % nth bucket_sizes s.ibuckets 0) ((key.w3 >>> 16) % 2 ^ 16) } rfl rfl rfl rfl rfl rfl

/-- C10 witness: the admission dynamics applied to a one-resident,
one-ghost cache and a brand-new key: the resident is rotated to the back
of L0 and the key becomes a ghost. -/
theorem c10_fresh_key_admission_witness :
    (put trC2 key3 ⟨[], 10⟩ 10 true 0 0).1 = 0 ∧
    (put trC2 key3 ⟨[], 10⟩ 10 true 0 0).2.lru0 = [0] ∧
    (put trC2 key3 ⟨[], 10⟩ 10 true 0 0).2.lru1.getLast? = some trC2.next_id ∧
    storeFind (put trC2 key3 ⟨[], 10⟩ 10 true 0 0).2.store trC2.next_id = some { key := key3, auxkey1 := 0, auxkey2 := 0, hits := 1, size := 10, len := 0, compressed_len := 0, compressed := 0, incompressible := false, lru := true, copy := false, data := none } := by
  have hch : nth trC2.bucket (key3.w3 % trC2.nbuckets) [] = ([] : List Nat) := by decide
  have H := c10_fresh_key_admission trC2 key3 ⟨[], 10⟩ 10 true 0 0 (by decide)
    (fun eid heid => absurd (hch ▸ heid) (List.not_mem_nil eid))
    (by decide) (by decide) (by decide) (by decide)
  exact H.1 (by decide) (by decide) 0 [] (by decide)


/-- C9 (corrected): a put rejected by the seen filter persists exactly
the admission lookup's effect plus the one seen-slot update: the final
state is the post-lookup state with `seen[s] = k`, and nothing else.  The
lookup itself, however, destroys same-digest entries whose aux keys do
not both match, so a rejected put is not free of side effects on
previously stored entries. -/
theorem c9_reject_frame (s : RamCacheCLFUS) (key : MD5) (data : IOBufferData)
    (len : Nat) (copy : Bool) (a1 a2 : Nat)
    (hmz : s.max_bytes ≠ 0)
    (hnone : (put_lookup key a1 a2 s (nth s.bucket (key.w3 % s.nbuckets) [])).1 = none)
    (hnt : ¬((put_lookup key a1 a2 s (nth s.bucket (key.w3 % s.nbuckets) [])).2.lru1 = [] ∧ (put_lookup key a1 a2 s (nth s.bucket (key.w3 % s.nbuckets) [])).2.bytes + ((if copy then len else data.block_size : Nat) : Int) ≤ (put_lookup key a1 a2 s (nth s.bucket (key.w3 % s.nbuckets) [])).2.max_bytes))
    (hrej : (put_lookup key a1 a2 s (nth s.bucket (key.w3 % s.nbuckets) [])).2.history ≥ (put_lookup key a1 a2 s (nth s.bucket (key.w3 % s.nbuckets) [])).2.objects ∧ nth (put_lookup key a1 a2 s (nth s.bucket (key.w3 % s.nbuckets) [])).2.seen (key.w3 % nth bucket_sizes (put_lookup key a1 a2 s (nth s.bucket (key.w3 % s.nbuckets) [])).2.ibuckets 0) 0 ≠ (key.w3 >>> 16) % 2 ^ 16) :
    put s key data len copy a1 a2 = (0, { (put_lookup key a1 a2 s (nth s.bucket (key.w3 % s.nbuckets) [])).2 with seen := setNth (put_lookup key a1 a2 s (nth s.bucket (key.w3 % s.nbuckets) [])).2.seen (key.w3 % nth bucket_sizes (put_lookup key a1 a2 s (nth s.bucket (key.w3 % s.nbuckets) [])).2.ibuckets 0) ((key.w3 >>> 16) % 2 ^ 16) }) := by
  have hp : put_lookup key a1 a2 s (nth s.bucket (key.w3 % s.nbuckets) []) =
      (none, (put_lookup key a1 a2 s (nth s.bucket (key.w3 % s.nbuckets) [])).2) := by
    rw [← hnone]
  have hmain : put s key data len copy a1 a2 =
      put_main key data len copy a1 a2 (if copy then len else data.block_size)
        (key.w3 % s.nbuckets)
        none (put_lookup key a1 a2 s (nth s.bucket (key.w3 % s.nbuckets) [])).2 := by
    simp only [put, if_neg hmz]
    rw [hp]
  rw [hmain]
  simp only [put_main]
  rw [if_neg hnt]
  rw [if_pos hrej]

/-- C9 counterexample: a put rejected by the seen filter destroys a
previously stored entry under the same digest with different aux keys:
the (1, 0) entry present in trE1 is gone after the rejected put. -/
theorem c9_counterexample :
    (storeFind trE1.store 0).isSome = true ∧
    trE2.1 = 0 ∧
    storeFind trE2.2.store 0 = none := by
  refine ⟨by decide, by decide, by decide⟩

/-- C9 witness: the rejection frame applied to a one-resident, one-ghost
cache and a fresh key rejected by the filter. -/
theorem c9_reject_frame_witness :
    put trC2 keyHi ⟨[], 10⟩ 10 true 0 0 = (0, { (put_lookup keyHi 0 0 trC2 (nth trC2.bucket (keyHi.w3 % trC2.nbuckets) [])).2 with seen := setNth (put_lookup keyHi 0 0 trC2 (nth trC2.bucket (keyHi.w3 % trC2.nbuckets) [])).2.seen (keyHi.w3 % nth bucket_sizes (put_lookup keyHi 0 0 trC2 (nth trC2.bucket (keyHi.w3 % trC2.nbuckets) [])).2.ibuckets 0) ((keyHi.w3 >>> 16) % 2 ^ 16) }) :=
  c9_reject_frame trC2 keyHi ⟨[], 10⟩ 10 true 0 0 (by decide) (by decide) (by decide)
    (by decide)


theorem storeFind_storeSet_isSome (st : List (Nat × RamCacheCLFUSEntry)) (v x : Nat)
    (e' : RamCacheCLFUSEntry) (h : (storeFind st x).isSome = true) :
    (storeFind (storeSet st v e') x).isSome = true := by
  by_cases hx : x = v
  · subst hx
    obtain ⟨w, hw⟩ := Option.isSome_iff_exists.mp h
    rw [storeFind_storeSet_self st x w e' hw]
    rfl
  · rw [storeFind_storeSet_ne st v x e' hx]
    exact h

theorem take_drop_succ {α : Type} (L : List α) (j : Nat) (v : α) (rest : List α)
    (h : L.drop j = v :: rest) :
    L.take (j + 1) = L.take j ++ [v] ∧ L.drop (j + 1) = rest := by
  induction L generalizing j with
  | nil =>
    rw [List.drop_nil] at h
    exact absurd h (by simp)
  | cons x xs ih =>
    cases j with
    | zero =>
      rw [List.drop_zero] at h
      obtain ⟨h1, h2⟩ := List.cons.inj h
      subst h1
      subst h2
      exact ⟨rfl, rfl⟩
    | succ j' =>
      have h' : xs.drop j' = v :: rest := h
      obtain ⟨t1, t2⟩ := ih j' h'
      constructor
      · rw [List.take_succ_cons, List.take_succ_cons, t1]
        rfl
      · rw [List.drop_succ_cons]
        exact t2

theorem put_loop_tail_rotation (key : MD5) (data : IOBufferData) (len : Nat) (copy : Bool)
    (a1 a2 size i eid : Nat)
    (recurse : RamCacheCLFUS → List Nat → Nat × RamCacheCLFUS)
    (ve₁ ee : RamCacheCLFUSEntry) (t : RamCacheCLFUS) (victims : List Nat)
    (L : List Nat) (k₀ : Nat)
    (hee : storeFind (tick t).store eid = some ee)
    (hrot : (tick t).lru0 ++ victims = L.drop k₀ ++ L.take k₀)
    (hrec : (recurse (tick t) victims).1 = 0 →
      ∃ k, (recurse (tick t) victims).2.lru0 = L.drop k ++ L.take k) :
    (put_loop_tail key data len copy a1 a2 size i (some eid) recurse ve₁ t victims).1 = 0 →
    ∃ k, (put_loop_tail key data len copy a1 a2 size i (some eid) recurse ve₁ t
      victims).2.lru0 = L.drop k ++ L.take k := by
  simp only [put_loop_tail, hee]
  by_cases hcon : (tick t).bytes + (ve₁.size : Int) + (size : Int) > (tick t).max_bytes ∧
      CACHE_VALUE_GT ve₁.hits ve₁.size ee.hits ee.size
  · rw [if_pos hcon]
    intro _
    refine ⟨k₀, ?_⟩
    show (requeue_victims (tick t) victims).lru0 = L.drop k₀ ++ L.take k₀
    rw [requeue_victims_lru0]
    exact hrot
  · rw [if_neg hcon]
    by_cases hfit : (tick t).bytes + (size : Int) ≤ (tick t).max_bytes
    · rw [if_pos hfit]
      intro h1
      rw [put_insert_fst] at h1
      exact absurd h1 (by decide)
    · rw [if_neg hfit]
      exact hrec

theorem put_loop_some_rotation (key : MD5) (data : IOBufferData) (len : Nat) (copy : Bool)
    (a1 a2 size i eid : Nat) (L : List Nat) :
    ∀ (fuel j : Nat) (s : RamCacheCLFUS),
    s.lru0 = L.drop j →
    fuel + j ≥ L.length →
    (∀ x ∈ L.drop j, (storeFind s.store x).isSome = true) →
    (∀ x ∈ L.drop j, x ∉ s.lru1) →
    (storeFind s.store eid).isSome = true →
    eid ∉ s.lru1 →
    ((put_loop key data len copy a1 a2 size i (some eid) fuel s (L.take j)).1 = 0 →
      ∃ k, (put_loop key data len copy a1 a2 size i (some eid) fuel s (L.take j)).2.lru0 =
        L.drop k ++ L.take k) := by
  intro fuel
  induction fuel with
  | zero =>
    intro j s hL hfuel hsme hd heid heid1
    have hdrop : L.drop j = [] := List.drop_eq_nil_of_le (by omega)
    rw [put_loop_nil key data len copy a1 a2 size i (some eid) 0 s (L.take j)
      (by rw [hL, hdrop])]
    by_cases hfit : s.bytes + (size : Int) ≤ s.max_bytes
    · rw [if_pos hfit]
      intro h1
      rw [put_insert_fst] at h1
      exact absurd h1 (by decide)
    · rw [if_neg hfit]
      intro _
      refine ⟨j, ?_⟩
      rw [put_reject_lru0, hL]
  | succ fuel ih =>
    intro j s hL hfuel hsme hd heid heid1
    cases hdj : L.drop j with
    | nil =>
      rw [put_loop_nil key data len copy a1 a2 size i (some eid) (fuel + 1) s (L.take j)
        (by rw [hL, hdj])]
      by_cases hfit : s.bytes + (size : Int) ≤ s.max_bytes
      · rw [if_pos hfit]
        intro h1
        rw [put_insert_fst] at h1
        exact absurd h1 (by decide)
      · rw [if_neg hfit]
        intro _
        refine ⟨j, ?_⟩
        rw [put_reject_lru0, hL]
    | cons v rest =>
      obtain ⟨htake, hdrop⟩ := take_drop_succ L j v rest hdj
      have hvdj : v ∈ L.drop j := by rw [hdj]; exact List.mem_cons_self _ _
      obtain ⟨ve, hve⟩ : ∃ ve, storeFind s.store v = some ve :=
        Option.isSome_iff_exists.mp (hsme v hvdj)
      rw [put_loop_cons_succ key data len copy a1 a2 size i (some eid) fuel s (L.take j)
        v rest (by rw [hL, hdj])]
      simp only [put_loop_step, hve]
      rw [← htake]
      have htail : ∀ t : RamCacheCLFUS, t.lru0 = rest → t.lru1 = s.lru1 →
          t.store = storeSet s.store v { ve with hits := ve.hits * 2 % U64 } →
          ((put_loop_tail key data len copy a1 a2 size i (some eid)
              (put_loop key data len copy a1 a2 size i (some eid) fuel)
              { ve with hits := ve.hits * 2 % U64 } t (L.take (j + 1))).1 = 0 →
            ∃ k, (put_loop_tail key data len copy a1 a2 size i (some eid)
              (put_loop key data len copy a1 a2 size i (some eid) fuel)
              { ve with hits := ve.hits * 2 % U64 } t (L.take (j + 1))).2.lru0 =
              L.drop k ++ L.take k) := by
        intro t ht0 ht1 hts
        have heidt : (storeFind (tick t).store eid).isSome = true := by
          rw [tick_storeFind_of_not_mem t eid (by rw [ht1]; exact heid1), hts]
          exact storeFind_storeSet_isSome s.store v eid _ heid
        obtain ⟨ee, hee⟩ := Option.isSome_iff_exists.mp heidt
        refine put_loop_tail_rotation key data len copy a1 a2 size i eid _ _ ee t
          (L.take (j + 1)) L (j + 1) hee ?_ ?_
        · rw [tick_lru0, ht0, hdrop]
        · refine ih (j + 1) (tick t) (by rw [tick_lru0, ht0, hdrop]) (by omega) ?_ ?_
            heidt (fun hm => heid1 (ht1 ▸ tick_lru1_subset t eid hm))
          · intro x hx
            have hxdj : x ∈ L.drop j := by
              rw [hdj]
              exact List.mem_cons_of_mem _ (hdrop ▸ hx)
            rw [tick_storeFind_of_not_mem t x (by rw [ht1]; exact hd x hxdj), hts]
            exact storeFind_storeSet_isSome _ _ _ _ (hsme x hxdj)
          · intro x hx hmem
            have hxdj : x ∈ L.drop j := by
              rw [hdj]
              exact List.mem_cons_of_mem _ (hdrop ▸ hx)
            exact hd x hxdj (ht1 ▸ tick_lru1_subset t x hmem)
      split
      · exact htail _ rfl rfl rfl
      · exact htail _ rfl rfl rfl

/-- C5 (corrected): on a rejected admission the collected victims are
requeued in dequeue order at the BACK of L0, so the resulting L0 queue is
a rotation of the original queue, not necessarily the identical order. -/
theorem c5_reject_requeue_rotation (s : RamCacheCLFUS) (key : MD5) (data : IOBufferData)
    (len : Nat) (copy : Bool) (a1 a2 : Nat)
    (hmz : s.max_bytes ≠ 0)
    (hnd : ∀ eid ∈ nth s.bucket (key.w3 % s.nbuckets) [], ∀ e,
      storeFind s.store eid = some e → e.key = key → e.auxkey1 = a1 ∧ e.auxkey2 = a2)
    (hsme : ∀ x ∈ s.lru0, (storeFind s.store x).isSome = true)
    (hd01 : ∀ x ∈ s.lru0, x ∉ s.lru1)
    (hl1nd : s.lru1.Nodup)
    (hfr0 : ∀ x ∈ s.lru0, x < s.next_id)
    (hnid : storeFind s.store s.next_id = none) :
    (put s key data len copy a1 a2).1 = 0 →
    ∃ k, (put s key data len copy a1 a2).2.lru0 = s.lru0.drop k ++ s.lru0.take k := by
  obtain ⟨hs₁, hsome⟩ :=
    put_lookup_nodestroy key a1 a2 s (nth s.bucket (key.w3 % s.nbuckets) []) hnd
  simp only [put, if_neg hmz]
  cases heo : (put_lookup key a1 a2 s (nth s.bucket (key.w3 % s.nbuckets) [])).1 with
  | none =>
    have hp : put_lookup key a1 a2 s (nth s.bucket (key.w3 % s.nbuckets) []) =
        (none, s) := Prod.ext heo hs₁
    rw [hp]
    simp only [put_main]
    by_cases htr : s.lru1 = [] ∧
        s.bytes + ((if copy then len else data.block_size : Nat) : Int) ≤ s.max_bytes
    · rw [if_pos htr]
      intro h1
      rw [put_insert_fst] at h1
      exact absurd h1 (by decide)
    · rw [if_neg htr]
      by_cases hrej : s.history ≥ s.objects ∧
          nth s.seen (key.w3 % nth bucket_sizes s.ibuckets 0) 0 ≠ (key.w3 >>> 16) % 2 ^ 16
      · rw [if_pos hrej]
        intro _
        refine ⟨0, ?_⟩
        show s.lru0 = s.lru0.drop 0 ++ s.lru0.take 0
        simp
      · rw [if_neg hrej]
        have hkeyC : ∀ t : RamCacheCLFUS, t.lru0 = s.lru0 → t.lru1 = s.lru1 →
            t.store = s.store → t.next_id = s.next_id →
            ((put_loop key data len copy a1 a2 (if copy then len else data.block_size)
                (key.w3 % s.nbuckets) none t.lru0.length t []).1 = 0 →
              ∃ k, (put_loop key data len copy a1 a2
                (if copy then len else data.block_size) (key.w3 % s.nbuckets) none
                t.lru0.length t []).2.lru0 = s.lru0.drop k ++ s.lru0.take k) := by
          intro t ht0 ht1 hts htn
          cases hL0 : s.lru0 with
          | nil =>
            rw [put_loop_nil key data len copy a1 a2 _ _ none _ t [] (by rw [ht0, hL0])]
            by_cases hfit : t.bytes +
                ((if copy then len else data.block_size : Nat) : Int) ≤ t.max_bytes
            · rw [if_pos hfit]
              intro h1
              rw [put_insert_fst] at h1
              exact absurd h1 (by decide)
            · rw [if_neg hfit]
              intro _
              refine ⟨0, ?_⟩
              rw [put_reject_lru0, ht0, hL0]
              rfl
          | cons v rest =>
            have hvmem : v ∈ s.lru0 := by rw [hL0]; exact List.mem_cons_self _ _
            obtain ⟨ve, he0⟩ : ∃ ve, storeFind s.store v = some ve :=
              Option.isSome_iff_exists.mp (hsme v hvmem)
            have hfuel : t.lru0.length = rest.length + 1 := by rw [ht0, hL0]; rfl
            rw [hfuel]
            have H := put_loop_none_facts key data len copy a1 a2
              (if copy then len else data.block_size) (key.w3 % s.nbuckets) rest.length
              t v rest ve (by rw [ht0, hL0]) (by rw [hts]; exact he0)
              (by rw [ht1]; exact hd01 v hvmem)
              (by rw [htn]; exact Nat.ne_of_lt (hfr0 v hvmem))
              (by rw [hts, htn]; exact hnid)
            intro _
            refine ⟨1, ?_⟩
            rw [H.2.1]
            rfl
        exact hkeyC { s with seen := setNth s.seen (key.w3 % nth bucket_sizes s.ibuckets 0) ((key.w3 >>> 16) % 2 ^ 16) } rfl rfl rfl rfl
  | some eid =>
    obtain ⟨hmem, e, hfe, hkk, ha1, ha2⟩ := hsome eid heo
    have hp : put_lookup key a1 a2 s (nth s.bucket (key.w3 % s.nbuckets) []) =
        (some eid, s) := Prod.ext heo hs₁
    rw [hp]
    simp only [hfe]
    by_cases hlru : e.lru = false
    · rw [if_pos hlru]
      intro h1
      exact absurd (show (1 : Nat) = 0 from h1) (by decide)
    · rw [if_neg hlru]
      simp only [put_main]
      by_cases htr2 : eraseId s.lru1 eid = [] ∧
          s.bytes + ((if copy then len else data.block_size : Nat) : Int) ≤ s.max_bytes
      · rw [if_pos htr2]
        intro h1
        rw [put_insert_fst] at h1
        exact absurd h1 (by decide)
      · rw [if_neg htr2]
        refine put_loop_some_rotation key data len copy a1 a2
          (if copy then len else data.block_size) (key.w3 % s.nbuckets) eid s.lru0
          _ 0 _ ?_ ?_ ?_ ?_ ?_ ?_
        · exact (List.drop_zero s.lru0).symm
        · show s.lru0.length + 0 ≥ s.lru0.length
          omega
        · intro x hx
          show (storeFind (storeSet s.store eid { e with hits := (e.hits + 1) % U64 })
            x).isSome = true
          exact storeFind_storeSet_isSome _ _ _ _ (hsme x (List.drop_zero s.lru0 ▸ hx))
        · intro x hx hmem2
          have hm2 : x ∈ eraseId s.lru1 eid := hmem2
          exact hd01 x (List.drop_zero s.lru0 ▸ hx) (mem_of_mem_eraseId s.lru1 eid x hm2)
        · show (storeFind (storeSet s.store eid { e with hits := (e.hits + 1) % U64 })
            eid).isSome = true
          rw [storeFind_storeSet_self s.store eid e _ hfe]
          rfl
        · show eid ∉ eraseId s.lru1 eid
          exact not_mem_eraseId_of_nodup s.lru1 eid hl1nd

/-- C5 counterexample: a rejected re-admission of key4 from the ghost
list rotates L0 from [1, 2, 0] to [2, 0, 1]: the ordering is not
restored exactly. -/
theorem c5_counterexample :
    trD5.1 = 0 ∧
    trD4.lru0 = [1, 2, 0] ∧
    trD5.2.lru0 = [2, 0, 1] ∧
    trD5.2.lru0 ≠ trD4.lru0 := by
  refine ⟨by decide, by decide, by decide, by decide⟩

/-- C5 witness: the rotation theorem applied to the concrete rejected
re-admission of key4. -/
theorem c5_reject_requeue_rotation_witness :
    ∃ k, (put trD4 key4 ⟨[], 800⟩ 800 true 0 0).2.lru0 =
      trD4.lru0.drop k ++ trD4.lru0.take k := by
  have hch : nth trD4.bucket (key4.w3 % trD4.nbuckets) [] = [3] := by decide
  have hfe3 : storeFind trD4.store 3 = some { key := key4, auxkey1 := 0, auxkey2 := 0, hits := 1, size := 800, len := 0, compressed_len := 0, compressed := 0, incompressible := false, lru := true, copy := false, data := none } := by decide
  refine c5_reject_requeue_rotation trD4 key4 ⟨[], 800⟩ 800 true 0 0 (by decide) ?_
    (by decide) (by decide) (by decide) (by decide) (by decide) (by decide)
  intro eid heid e hfe hk
  rw [hch] at heid
  have h3 : eid = 3 := List.mem_singleton.mp heid
  subst h3
  rw [hfe3] at hfe
  obtain rfl := Option.some.inj hfe
  exact ⟨rfl, rfl⟩
